import Mathlib

/-!
# The AudioMoth animation filter (`vf_audiomothanimation.c`)

A shallow embedding of the marker scheduling and of the pixel loops of
`filter_frame`, and the properties of them that the specification states.

Conventions of the embedding.

* A C `int` is an `Int`.  Signed overflow is undefined in C, so the results are
  about runs in which every intermediate value fits its type.  `/` on `int` is
  division truncating toward zero (`Int.tdiv`), and a division by zero has no
  result (`none`).
* An `unsigned char` is a `Fin 256`; storing an `int` or a `double` into one
  keeps the value modulo `256`.
* A finite `float` or `double` is a pair `m * 2 ^ e` (`Fp`).  Every arithmetic
  operation is the exact operation followed by rounding to nearest, ties to
  even, at 24 bits (`float`) or 53 bits (`double`).  Infinities, NaN and the
  limits of the exponent range are outside the model.
* A plane of a frame is addressed by row and column: `row[p][c]` with
  `row[p] = data[p] + linesize[p] * r` is the sample `(p, r, c)`.
-/

namespace AudioMothAnimation

/-! ## Integer helpers -/

/-- The macro `MIN(a, b)`: `((a) < (b) ? (a) : (b))`. -/
def MIN (a b : Int) : Int := if a < b then a else b

/-- The macro `MAX(a, b)`: `((a) > (b) ? (a) : (b))`. -/
def MAX (a b : Int) : Int := if a > b then a else b

/-- `FFMAX(a, b)` of libavutil: `((a) > (b) ? (a) : (b))`. -/
def FFMAX (a b : Int) : Int := if a > b then a else b

/-- Division of two `int`s in C: truncation toward zero, no result when the
divisor is zero. -/
def cdiv (a b : Int) : Option Int :=
  if b = 0 then none else some (Int.tdiv a b)

/-- The macro `ROUNDED_DIV(a, b)`: `(((a) + ((b)/2)) / (b))`. -/
def ROUNDED_DIV (a b : Int) : Option Int :=
  cdiv (a + Int.tdiv b 2) b

/-! ## Binary floating point -/

/-- A finite binary floating-point number, of value `m * 2 ^ e`. -/
structure Fp where
  m : Int
  e : Int
deriving DecidableEq, Repr

/-- Number of binary digits of `n`, computed with `fuel` halvings at most. -/
def bitLenAux : Nat → Nat → Nat
  | 0, _ => 0
  | fuel + 1, n => if n = 0 then 0 else bitLenAux fuel (n / 2) + 1

/-- Number of binary digits of `n` (`0` for `0`). -/
def bitLen (n : Nat) : Nat := bitLenAux n n

namespace Fp

/-- An integer, as a floating-point number (exact). -/
def ofInt (i : Int) : Fp := ⟨i, 0⟩

/-- Rounding to `p` significant bits, to nearest, ties to even. -/
def round (p : Nat) (x : Fp) : Fp :=
  let a := x.m.natAbs
  let n := bitLen a
  if n ≤ p then x
  else
    let k := n - p
    let q := a / 2 ^ k
    let r := a % 2 ^ k
    let half := 2 ^ (k - 1)
    let q1 := if half < r ∨ (r = half ∧ q % 2 = 1) then q + 1 else q
    ⟨Int.sign x.m * (q1 : Int), x.e + (k : Int)⟩

/-- Exact sum. -/
def add (x y : Fp) : Fp :=
  let e := if x.e < y.e then x.e else y.e
  ⟨x.m * 2 ^ (x.e - e).toNat + y.m * 2 ^ (y.e - e).toNat, e⟩

/-- Exact opposite. -/
def neg (x : Fp) : Fp := ⟨-x.m, x.e⟩

/-- Exact product. -/
def mul (x y : Fp) : Fp := ⟨x.m * y.m, x.e + y.e⟩

/-- Conversion to an integer type: the fractional part is discarded
(truncation toward zero). -/
def trunc (x : Fp) : Int :=
  if 0 ≤ x.e then x.m * 2 ^ x.e.toNat else Int.tdiv x.m (2 ^ (-x.e).toNat)

end Fp

/-- Significand width of a `float`. -/
def floatBits : Nat := 24

/-- Significand width of a `double`. -/
def doubleBits : Nat := 53

/-- The conversion `(float) i` of an `int`. -/
def intToFloat (i : Int) : Fp := Fp.round floatBits (Fp.ofInt i)

/-- The sum `a + b` of two `float`s. -/
def floatAdd (a b : Fp) : Fp := Fp.round floatBits (Fp.add a b)

/-! ## Configuration and process-wide state -/

/-- One sample of a plane. -/
abbrev Byte := Fin 256

/-- The fields of `AudioMothAnimationContext` that `filter_frame` reads. -/
structure AudioMothAnimationContext where
  x : Int
  y : Int
  w : Int
  h : Int
  framecount : Int
  yuv_color : Fin 4 → Byte
  invert_color : Bool
  vsub : Nat
  hsub : Nat
  have_alpha : Bool
  replace : Bool

/-- The file-scope variables `numberOfBoxes`, `frameCounter`,
`skippingPercentages` and `skipCount`.  `skippingPercentages` lists the
elements of the array that hold a value; `skipCount` is the count that
`splitAndConvert` stored. -/
structure Globals where
  numberOfBoxes : Int
  frameCounter : Int
  skippingPercentages : List Fp
  skipCount : Int

/-! ## The marker position (`filter_frame`, lines 276-299) -/

/-- The read `skippingPercentages[i]`: no result outside the stored elements. -/
def readSkip (a : List Fp) (i : Int) : Option Fp :=
  if 0 ≤ i then a[i.toNat]? else none

/-- `currentPercentage` of line 288, the index into `skippingPercentages`. -/
def currentPercentage (s : AudioMothAnimationContext) (g : Globals) (counter : Int) :
    Option Int :=
  ROUNDED_DIV ((g.skipCount - 1) * counter) (s.framecount - 1)

/-- The assignment `xPosition = xb + skippingPercentages[currentPercentage]`:
`xb` is converted to `float`, the sum is a `float`, and the conversion to `int`
truncates. -/
def addSkip (xb : Int) (v : Fp) : Int :=
  Fp.trunc (floatAdd (intToFloat xb) v)

/-- The value of `xPosition` after the `if (skipCount == 0) ... else ...` of
lines 280-295, for a given `counter`. -/
def rawXPosition (s : AudioMothAnimationContext) (g : Globals) (counter : Int) :
    Option Int :=
  if g.skipCount = 0 then
    (ROUNDED_DIV (counter * (s.w - 1)) (s.framecount - 1)).map (fun d => s.x + d)
  else
    (currentPercentage s g counter).bind fun i =>
      (readSkip g.skippingPercentages i).map (fun v => addSkip s.x v)

/-- The two clamps of lines 297 and 299. -/
def clampXPosition (s : AudioMothAnimationContext) (xPosition : Int) : Int :=
  MIN (MAX xPosition s.x) (s.x + s.w - 1)

/-- The value of `xPosition` at line 299, for a given `counter`. -/
def xPositionAt (s : AudioMothAnimationContext) (g : Globals) (counter : Int) :
    Option Int :=
  (rawXPosition s g counter).map (clampXPosition s)

/-- `counter` of line 276: `frameCounter / numberOfBoxes`. -/
def localIndex (g : Globals) : Option Int :=
  cdiv g.frameCounter g.numberOfBoxes

/-- Lines 276-299 of `filter_frame`: the column of the marker for this frame. -/
def resolveOffset (s : AudioMothAnimationContext) (g : Globals) : Option Int :=
  (localIndex g).bind (xPositionAt s g)

/-! ## Double arithmetic of the blend (lines 341-345) -/

namespace Fp

/-- Quotient `x / y` rounded to `p` significant bits, to nearest, ties to even;
no result when `y` is zero. -/
def div (p : Nat) (x y : Fp) : Option Fp :=
  if y.m = 0 then none
  else
    let a := x.m.natAbs
    let b := y.m.natAbs
    let k := bitLen b + p + 1 - bitLen a
    let q := a * 2 ^ k / b
    let sticky := a * 2 ^ k % b
    let d := bitLen q - p
    let q1 := q / 2 ^ d
    let r := q % 2 ^ d
    let half := 2 ^ (d - 1)
    let up := half < r ∨ (r = half ∧ (sticky ≠ 0 ∨ q1 % 2 = 1))
    let q2 := if d = 0 then q else if up then q1 + 1 else q1
    some ⟨Int.sign x.m * Int.sign y.m * (q2 : Int), x.e - y.e - (k : Int) + (d : Int)⟩

end Fp

/-- The quotient `a / b` of two `double`s. -/
def doubleDiv (a b : Fp) : Option Fp := Fp.div doubleBits a b

/-- The difference `a - b` of two `double`s. -/
def doubleSub (a b : Fp) : Fp := Fp.round doubleBits (Fp.add a (Fp.neg b))

/-- The sum `a + b` of two `double`s. -/
def doubleAdd (a b : Fp) : Fp := Fp.round doubleBits (Fp.add a b)

/-- The product `a * b` of two `double`s. -/
def doubleMul (a b : Fp) : Fp := Fp.round doubleBits (Fp.mul a b)

/-- Conversion of an `int` to `unsigned char`. -/
def toByte (i : Int) : Byte := ⟨(i % 256).toNat, by omega⟩

/-- An `unsigned char` promoted to `int`. -/
def ofByte (b : Byte) : Int := (b.val : Int)

/-- `double alpha = (double)s->yuv_color[A] / 255` (line 341). -/
def blendAlpha (a : Byte) : Fp :=
  (doubleDiv (Fp.ofInt (ofByte a)) (Fp.ofInt 255)).getD (Fp.ofInt 0)

/-- The value `(1 - alpha) * old + alpha * colour`, computed in `double` and
stored into an `unsigned char` (lines 343-345). -/
def blend (alpha : Fp) (old colour : Byte) : Byte :=
  toByte (Fp.trunc (doubleAdd
    (doubleMul (doubleSub (Fp.ofInt 1) alpha) (Fp.ofInt (ofByte old)))
    (doubleMul alpha (Fp.ofInt (ofByte colour)))))

/-! ## Frames and the pixel loops (lines 301-350) -/

/-- The samples of a frame, by plane, row and column. -/
abbrev Planes := Nat → Int → Int → Byte

/-- The fields of `AVFrame` that `filter_frame` uses. -/
structure AVFrame where
  width : Int
  height : Int
  data : Planes

/-- State of the pixel loops: the samples, and the positions `(plane, row,
column)` of the stores made so far, most recent first. -/
structure PaintState where
  data : Planes
  stores : List (Nat × Int × Int)

/-- The store `row[p][c] = v` with `row[p]` the row `r` of plane `p`. -/
def store (st : PaintState) (p : Nat) (r c : Int) (v : Byte) : PaintState :=
  { data := fun p1 r1 c1 => if p1 = p ∧ r1 = r ∧ c1 = c then v else st.data p1 r1 c1
    stores := (p, r, c) :: st.stores }

/-- A loop `for (i = lo; cond(i); i++) body(i)` run from `i`, for at most `fuel`
iterations. -/
def forLoop {σ : Type} (cond : Int → Bool) (body : Int → σ → σ) : Nat → Int → σ → σ
  | 0, _, st => st
  | fuel + 1, i, st => if cond i then forLoop cond body fuel (i + 1) (body i st) else st

/-- Lines 313 and 337: `row[0][x] = 0xff - row[0][x]`. -/
def invertPixel (y x : Int) (st : PaintState) : PaintState :=
  store st 0 y x (toByte (0xff - ofByte (st.data 0 y x)))

/-- Lines 318-321: the four stores of the replace path. -/
def replacePixel (s : AudioMothAnimationContext) (y x : Int) (st : PaintState) :
    PaintState :=
  let st := store st 0 y x (s.yuv_color 0)
  let st := store st 1 (y >>> s.vsub) (x >>> s.hsub) (s.yuv_color 1)
  let st := store st 2 (y >>> s.vsub) (x >>> s.hsub) (s.yuv_color 2)
  store st 3 y x (s.yuv_color 3)

/-- Lines 341-345: the three stores of the blend path. -/
def blendPixel (s : AudioMothAnimationContext) (y x : Int) (st : PaintState) :
    PaintState :=
  let alpha := blendAlpha (s.yuv_color 3)
  let st := store st 0 y x (blend alpha (st.data 0 y x) (s.yuv_color 0))
  let st := store st 1 (y >>> s.vsub) (x >>> s.hsub)
    (blend alpha (st.data 1 (y >>> s.vsub) (x >>> s.hsub)) (s.yuv_color 1))
  store st 2 (y >>> s.vsub) (x >>> s.hsub)
    (blend alpha (st.data 2 (y >>> s.vsub) (x >>> s.hsub)) (s.yuv_color 2))

/-- The loop over `x` of one row:
`for (x = FFMAX(xb, 0); x < xb + s->w && x < frame->width; x++)
   if (x == xPosition) pixel(x)`. -/
def columnLoop (s : AudioMothAnimationContext) (width xPosition : Int)
    (pixel : Int → PaintState → PaintState) (st : PaintState) : PaintState :=
  forLoop (fun x => decide (x < s.x + s.w) && decide (x < width))
    (fun x st => if x = xPosition then pixel x st else st)
    (width - FFMAX s.x 0).toNat (FFMAX s.x 0) st

/-- The loop over `y`:
`for (y = FFMAX(yb, 0); y < frame->height && y < (yb + s->h); y++) row(y)`. -/
def rowLoop (s : AudioMothAnimationContext) (height : Int)
    (row : Int → PaintState → PaintState) (st : PaintState) : PaintState :=
  forLoop (fun y => decide (y < height) && decide (y < s.y + s.h)) row
    (height - FFMAX s.y 0).toNat (FFMAX s.y 0) st

/-- Lines 301-350 of `filter_frame`, for a frame of the given size. -/
def paint (s : AudioMothAnimationContext) (width height xPosition : Int)
    (st : PaintState) : PaintState :=
  if s.have_alpha && s.replace then
    rowLoop s height (fun y st =>
      if s.invert_color then columnLoop s width xPosition (invertPixel y) st
      else columnLoop s width xPosition (replacePixel s y) st) st
  else
    rowLoop s height (fun y st =>
      if s.invert_color then columnLoop s width xPosition (invertPixel y) st
      else columnLoop s width xPosition (blendPixel s y) st) st

/-- The pixel loops applied to a frame (`composite` of the specification):
the state they end in, starting with no store made. -/
def composite (s : AudioMothAnimationContext) (xPosition : Int) (frame : AVFrame) :
    PaintState :=
  paint s frame.width frame.height xPosition ⟨frame.data, []⟩

/-- The frame after the pixel loops. -/
def compositeFrame (s : AudioMothAnimationContext) (xPosition : Int) (frame : AVFrame) :
    AVFrame :=
  { frame with data := (composite s xPosition frame).data }

/-- The whole of `filter_frame`: the marker column is resolved, the pixel
loops run, `frameCounter` is incremented and the frame is passed on. -/
def filter_frame (s : AudioMothAnimationContext) (g : Globals) (frame : AVFrame) :
    Option (Globals × AVFrame) :=
  (resolveOffset s g).map fun xPosition =>
    ({ g with frameCounter := g.frameCounter + 1 }, compositeFrame s xPosition frame)

/-- The rows that the loop over `y` visits in a frame of the given height:
`FFMAX(yb, 0) <= y`, `y < frame->height` and `y < yb + s->h`. -/
def rowScanned (s : AudioMothAnimationContext) (height y : Int) : Prop :=
  FFMAX s.y 0 ≤ y ∧ y < height ∧ y < s.y + s.h

/-- The columns that the loop over `x` visits in a frame of the given width:
`FFMAX(xb, 0) <= x`, `x < xb + s->w` and `x < frame->width`. -/
def colScanned (s : AudioMothAnimationContext) (width x : Int) : Prop :=
  FFMAX s.x 0 ≤ x ∧ x < s.x + s.w ∧ x < width

instance (s : AudioMothAnimationContext) (height y : Int) :
    Decidable (rowScanned s height y) :=
  inferInstanceAs (Decidable (FFMAX s.y 0 ≤ y ∧ y < height ∧ y < s.y + s.h))

instance (s : AudioMothAnimationContext) (width x : Int) :
    Decidable (colScanned s width x) :=
  inferInstanceAs (Decidable (FFMAX s.x 0 ≤ x ∧ x < s.x + s.w ∧ x < width))

/-- The samples that the marker of column `xPosition` covers: in planes 0 and 3
the column `xPosition` of a visited row `y`, in planes 1 and 2 the column
`xPosition >> hsub` of the row `y >> vsub` of a visited row `y`. -/
def markerSample (s : AudioMothAnimationContext) (height xPosition : Int)
    (p : Nat) (r c : Int) : Prop :=
  ((p = 0 ∨ p = 3) ∧ c = xPosition ∧ rowScanned s height r) ∨
  ((p = 1 ∨ p = 2) ∧ c = xPosition >>> s.hsub ∧
    ∃ y, rowScanned s height y ∧ r = y >>> s.vsub)

/-- A store inside the frame: planes 0 and 3 at a row `y` and column `x` with
`0 <= y < height` and `0 <= x < width`, planes 1 and 2 at `(y >> vsub,
x >> hsub)` for such `y` and `x`; plane 3 only when the format has alpha. -/
def storeInFrame (s : AudioMothAnimationContext) (width height : Int)
    (pos : Nat × Int × Int) : Prop :=
  (pos.1 = 3 → s.have_alpha = true) ∧
  ∃ y x, 0 ≤ y ∧ y < height ∧ 0 ≤ x ∧ x < width ∧
    (((pos.1 = 0 ∨ pos.1 = 3) ∧ pos.2.1 = y ∧ pos.2.2 = x) ∨
     ((pos.1 = 1 ∨ pos.1 = 2) ∧ pos.2.1 = y >>> s.vsub ∧ pos.2.2 = x >>> s.hsub))

/-! ## Scenarios of the specification -/

/-- The rectangle `(x=0, y=0, w=10, h=1)` with `framecount = 5`, painted with
an opaque colour on a format without alpha and without chroma subsampling. -/
def uniformScenario : AudioMothAnimationContext :=
  { x := 0, y := 0, w := 10, h := 1, framecount := 5, yuv_color := fun _ => 255,
    invert_color := false, vsub := 0, hsub := 0, have_alpha := false, replace := false }

/-- One filter instance, no skip list, `k` frames filtered so far. -/
def uniformGlobals (k : Int) : Globals :=
  { numberOfBoxes := 1, frameCounter := k, skippingPercentages := [], skipCount := 0 }

/-- A rectangle of width `w` at `x = 0` with `framecount = 3`. -/
def skipScenario (w : Int) : AudioMothAnimationContext :=
  { uniformScenario with w := w, framecount := 3 }

/-- One filter instance with the skip list `"0|50|100"`, `k` frames filtered so
far. -/
def skipGlobals (k : Int) : Globals :=
  { numberOfBoxes := 1, frameCounter := k,
    skippingPercentages := [Fp.ofInt 0, Fp.ofInt 50, Fp.ofInt 100], skipCount := 3 }

/-- A frame of 4 columns and 2 rows whose samples all differ. -/
def sampleFrame : AVFrame :=
  { width := 4, height := 2, data := fun p r c => toByte ((p : Int) * 100 + r * 4 + c) }

/-- A rectangle that starts above the frame and ends below it, painted in
invert mode on a format with both chroma dimensions halved. -/
def invertScenario : AudioMothAnimationContext :=
  { x := 1, y := -1, w := 3, h := 5, framecount := 5, yuv_color := fun _ => 128,
    invert_color := true, vsub := 1, hsub := 1, have_alpha := false, replace := false }

/-- The rectangle of `invertScenario`, painted in blend mode. -/
def blendScenario : AudioMothAnimationContext :=
  { invertScenario with invert_color := false }

/-! ## A stream of frames -/

/-- Successive calls of `filter_frame`, one per frame of the stream, each with
the context of the filter instance that receives the frame; the file-scope
variables pass from one call to the next. -/
def filterFrames (g : Globals) :
    List (AudioMothAnimationContext × AVFrame) → Option (Globals × List AVFrame)
  | [] => some (g, [])
  | call :: rest =>
    (filter_frame call.1 g call.2).bind fun r =>
      (filterFrames r.1 rest).map fun rs => (rs.1, r.2 :: rs.2)

/-! ## Setup: `splitAndConvert`, `init` and `config_input` -/

/-- Lines 108-113 of `splitAndConvert`: `*skipCount` starts at 1 and grows by
one per `'|'` of the string. -/
def countFields (inputString : List Char) : Int :=
  inputString.foldl (fun n c => if c = '|' then n + 1 else n) 1

/-- The tokens that the calls `strtok(inputString, "|")`, `strtok(NULL, "|")`,
... return until `NULL`: the maximal runs of characters other than `'|'`, in
order.  `cur` holds, reversed, the characters of the token being read. -/
def strtokAll : List Char → List Char → List (List Char)
  | [], cur => if cur = [] then [] else [cur.reverse]
  | c :: cs, cur =>
    if c = '|' then
      if cur = [] then strtokAll cs [] else cur.reverse :: strtokAll cs []
    else strtokAll cs (c :: cur)

/-- The function `splitAndConvert` when `malloc` succeeds: the count stored
through `skipCount`, and the values stored into the array, `floatArray[0]`
first.  `atof` stands for `atof` of the C library followed by the conversion
of its result to `float`. -/
def splitAndConvert (atof : List Char → Fp) (inputString : List Char) : Int × List Fp :=
  (countFields inputString, (strtokAll inputString []).map atof)

/-- `AVERROR(EINVAL)`. -/
def AVERROR_EINVAL : Int := -22

/-- The function `init`.  `parsed` is the outcome of `av_parse_color` on
`color_str` followed by the conversion of the colour to YUV (`none` when
`av_parse_color` fails).  The result is the error code, or the context and the
file-scope variables after the call. -/
def init (atof : List Char → Fp) (s : AudioMothAnimationContext) (g : Globals)
    (color_str skip_str : List Char) (parsed : Option (Fin 4 → Byte)) :
    Except Int (AudioMothAnimationContext × Globals) :=
  let isInvert : Bool := decide (color_str = ['i', 'n', 'v', 'e', 'r', 't'])
  if ¬ isInvert ∧ parsed.isNone then Except.error AVERROR_EINVAL
  else
    let s := if isInvert then { s with invert_color := true } else s
    let s := if s.invert_color then s
      else { s with yuv_color := parsed.getD s.yuv_color }
    let g := { g with numberOfBoxes := g.numberOfBoxes + 1 }
    let g := if g.skipCount = 0 ∧ skip_str ≠ ['-'] then
        { g with skippingPercentages := (splitAndConvert atof skip_str).2
                 skipCount := (splitAndConvert atof skip_str).1 }
      else g
    Except.ok (s, g)

/-- The values of the five expressions on the last pass of the loop of
`config_input` (lines 209-245), each converted to `int`, or the error code of
`av_expr_parse_and_eval` when the evaluation fails on that pass. -/
structure ExprValues where
  x : Except Int Int
  y : Except Int Int
  w : Except Int Int
  h : Except Int Int
  t : Except Int Int

/-- The function `config_input` for an input link of size `inlink_w` by
`inlink_h` whose pixel format has the given chroma shifts and alpha flag.  The
result is the error code, or the context after the call. -/
def config_input (s : AudioMothAnimationContext) (inlink_w inlink_h : Int)
    (log2_chroma_w log2_chroma_h : Nat) (alpha : Bool) (e : ExprValues) :
    Except Int AudioMothAnimationContext :=
  match e.x, e.y, e.w, e.h, e.t with
  | Except.error ret, _, _, _, _ => Except.error ret
  | Except.ok _, Except.error ret, _, _, _ => Except.error ret
  | Except.ok _, Except.ok _, Except.error ret, _, _ => Except.error ret
  | Except.ok _, Except.ok _, Except.ok _, Except.error ret, _ => Except.error ret
  | Except.ok _, Except.ok _, Except.ok _, Except.ok _, Except.error ret => Except.error ret
  | Except.ok x, Except.ok y, Except.ok w, Except.ok h, Except.ok t =>
    let w := if w > 0 then w else inlink_w
    let h := if h > 0 then h else inlink_h
    if w < 0 ∨ h < 0 then Except.error AVERROR_EINVAL
    else Except.ok { s with
      x := x, y := y, w := w, h := h, framecount := t,
      hsub := log2_chroma_w, vsub := log2_chroma_h, have_alpha := alpha }

/-- The private context before `init`: every field zero. -/
def zeroContext : AudioMothAnimationContext :=
  { x := 0, y := 0, w := 0, h := 0, framecount := 0, yuv_color := fun _ => 0,
    invert_color := false, vsub := 0, hsub := 0, have_alpha := false, replace := false }

/-- The file-scope variables when the program starts. -/
def zeroGlobals : Globals :=
  { numberOfBoxes := 0, frameCounter := 0, skippingPercentages := [], skipCount := 0 }

/-- The expressions of the default options on a frame, with the given width,
height and frame count: `x = 0`, `y = 0`. -/
def exprValues (w h t : Int) : ExprValues :=
  { x := Except.ok 0, y := Except.ok 0, w := Except.ok w, h := Except.ok h,
    t := Except.ok t }

/-- Two filter instances, no skip list, no frame filtered yet. -/
def twoInstances : Globals :=
  { numberOfBoxes := 2, frameCounter := 0, skippingPercentages := [], skipCount := 0 }

/-- A stream of three frames, all received with the context `uniformScenario`. -/
def shortStream : List (AudioMothAnimationContext × AVFrame) :=
  [(uniformScenario, sampleFrame), (uniformScenario, sampleFrame),
    (uniformScenario, sampleFrame)]

/-! ## The blend of the specification, and the rows that share a chroma row -/

/-- The formula of the specification read over the rationals: the integer part
of `((255 - a) * old + a * colour) / 255`, which is `(1 - alpha) * old +
alpha * colour` for `alpha = a / 255`. -/
def blendExact (a old colour : Byte) : Byte :=
  toByte (((255 - ofByte a) * ofByte old + ofByte a * ofByte colour) / 255)

/-- Number of rows `y` with `y >> vsub = r` among the rows that a loop
`for (y = lo; y < a && y < b; y++)` visits, run for at most `fuel`
iterations. -/
def countRows (a b : Int) (vsub : Nat) (r : Int) : Nat → Int → Nat
  | 0, _ => 0
  | fuel + 1, y =>
    if y < a ∧ y < b then
      (if y >>> vsub = r then 1 else 0) + countRows a b vsub r fuel (y + 1)
    else 0

/-- Number of rows visited by the loop over `y` that have `r` as their row of
planes 1 and 2. -/
def coveringRows (s : AudioMothAnimationContext) (height r : Int) : Nat :=
  countRows height (s.y + s.h) s.vsub r (height - FFMAX s.y 0).toNat (FFMAX s.y 0)

/-- The rectangle of `uniformScenario`, blended with the colour `(3, 3, 3)` and
the alpha byte 5. -/
def faintScenario : AudioMothAnimationContext :=
  { uniformScenario with yuv_color := fun i => if i = 3 then 5 else 3 }

/-- A frame of 10 columns and 1 row whose samples are all 3. -/
def flatFrame : AVFrame :=
  { width := 10, height := 1, data := fun _ _ _ => 3 }

/-- The rectangle of `invertScenario`, painted in replace mode on a format
with alpha. -/
def replaceScenario : AudioMothAnimationContext :=
  { invertScenario with invert_color := false, have_alpha := true, replace := true }

/-- The rectangle of `invertScenario`, blended with the alpha byte 255. -/
def opaqueScenario : AudioMothAnimationContext :=
  { blendScenario with yuv_color := fun i => if i = 3 then 255 else 128 }

/-- The rectangle of `invertScenario`, blended with the alpha byte 0. -/
def transparentScenario : AudioMothAnimationContext :=
  { blendScenario with yuv_color := fun i => if i = 3 then 0 else 128 }

/-- A rectangle to the right of a frame of 4 columns. -/
def outsideScenario : AudioMothAnimationContext :=
  { blendScenario with x := 4 }

/-! ## Facts about the integer helpers -/

theorem cdiv_pos (a b : Int) (ha : 0 ≤ a) (hb : 0 < b) : cdiv a b = some (a / b) := by
  unfold cdiv
  rw [if_neg (by omega), Int.tdiv_eq_ediv ha (by omega)]

theorem ROUNDED_DIV_pos (a b : Int) (ha : 0 ≤ a) (hb : 0 < b) :
    ROUNDED_DIV a b = some ((a + b / 2) / b) := by
  unfold ROUNDED_DIV
  rw [Int.tdiv_eq_ediv (by omega) (by omega), cdiv_pos _ _ (by omega) hb]

/-- With a positive divisor, `(k * b + b / 2) / b` is `k`. -/
theorem mul_add_half_ediv (k b : Int) (hb : 0 < b) : (k * b + b / 2) / b = k := by
  have h1 : k * b + b / 2 = b / 2 + k * b := by ring
  rw [h1, Int.add_mul_ediv_right _ _ (by omega), Int.ediv_eq_zero_of_lt (by omega) (by omega)]
  simp

theorem half_up_mono (a a1 b : Int) (hb : 0 < b) (h : a ≤ a1) :
    (a + b / 2) / b ≤ (a1 + b / 2) / b :=
  Int.ediv_le_ediv hb (by omega)

theorem clampXPosition_mem (s : AudioMothAnimationContext) (p : Int) (hw : 1 ≤ s.w) :
    s.x ≤ clampXPosition s p ∧ clampXPosition s p ≤ s.x + s.w - 1 := by
  unfold clampXPosition MIN MAX
  split_ifs <;> omega

theorem clampXPosition_of_mem (s : AudioMothAnimationContext) (p : Int)
    (h1 : s.x ≤ p) (h2 : p ≤ s.x + s.w - 1) : clampXPosition s p = p := by
  unfold clampXPosition MIN MAX
  split_ifs <;> omega

theorem clampXPosition_mono (s : AudioMothAnimationContext) (p q : Int) (h : p ≤ q) :
    clampXPosition s p ≤ clampXPosition s q := by
  unfold clampXPosition MIN MAX
  split_ifs <;> omega

theorem localIndex_pos (g : Globals) (hb : 1 ≤ g.numberOfBoxes) :
    localIndex g = some (Int.tdiv g.frameCounter g.numberOfBoxes) := by
  unfold localIndex cdiv
  rw [if_neg (by omega)]

/-- Uniform mode, `counter` non-negative: the value of line 282. -/
theorem rawXPosition_uniform (s : AudioMothAnimationContext) (g : Globals) (L : Int)
    (hskip : g.skipCount = 0) (hw : 1 ≤ s.w) (hfc : 2 ≤ s.framecount) (hL : 0 ≤ L) :
    rawXPosition s g L =
      some (s.x + (L * (s.w - 1) + (s.framecount - 1) / 2) / (s.framecount - 1)) := by
  unfold rawXPosition
  rw [if_pos hskip, ROUNDED_DIV_pos _ _ (Int.mul_nonneg hL (by omega)) (by omega)]
  rfl

/-- The index of line 288 is inside the array while `counter` is at most
`framecount - 1`. -/
theorem currentPercentage_range (s : AudioMothAnimationContext) (g : Globals) (L : Int)
    (hn : 1 ≤ g.skipCount) (hfc : 2 ≤ s.framecount) (hL : 0 ≤ L)
    (hL1 : L ≤ s.framecount - 1) :
    ∃ i, currentPercentage s g L = some i ∧ 0 ≤ i ∧ i ≤ g.skipCount - 1 := by
  unfold currentPercentage
  rw [ROUNDED_DIV_pos _ _ (Int.mul_nonneg (by omega) hL) (by omega)]
  refine ⟨_, rfl, Int.ediv_nonneg ?_ (by omega), ?_⟩
  · have := Int.mul_nonneg (show (0 : Int) ≤ g.skipCount - 1 by omega) hL
    omega
  · have h1 : (g.skipCount - 1) * L ≤ (g.skipCount - 1) * (s.framecount - 1) :=
      Int.mul_le_mul_of_nonneg_left hL1 (by omega)
    calc ((g.skipCount - 1) * L + (s.framecount - 1) / 2) / (s.framecount - 1)
        ≤ ((g.skipCount - 1) * (s.framecount - 1) + (s.framecount - 1) / 2)
            / (s.framecount - 1) := half_up_mono _ _ _ (by omega) h1
      _ = g.skipCount - 1 := mul_add_half_ediv _ _ (by omega)

theorem readSkip_of_lt (a : List Fp) (i : Int) (h0 : 0 ≤ i) (h1 : i < a.length) :
    ∃ v, readSkip a i = some v ∧ a[i.toNat]? = some v := by
  unfold readSkip
  rw [if_pos h0]
  have h2 : i.toNat < a.length := by omega
  exact ⟨a[i.toNat], List.getElem?_eq_getElem h2, List.getElem?_eq_getElem h2⟩

/-! ## The claims on the marker position -/

/-- C1: for a rectangle of width at least 1, a frame count of at least 2, a
local index `frameCounter / numberOfBoxes` in `[0, framecount - 1]` and a
schedule that is absent (`skipCount = 0`) or holds `skipCount >= 1` values, the
marker column computed by lines 276-299 exists and lies in `[x, x + w - 1]`. -/
theorem resolveOffset_in_rect (s : AudioMothAnimationContext) (g : Globals)
    (hw : 1 ≤ s.w) (hfc : 2 ≤ s.framecount)
    (hb : 1 ≤ g.numberOfBoxes) (hc : 0 ≤ g.frameCounter)
    (hL : Int.tdiv g.frameCounter g.numberOfBoxes ≤ s.framecount - 1)
    (hs : g.skipCount = 0 ∨
      (1 ≤ g.skippingPercentages.length ∧ g.skipCount = g.skippingPercentages.length)) :
    ∃ p, resolveOffset s g = some p ∧ s.x ≤ p ∧ p ≤ s.x + s.w - 1 := by
  have hL0 : 0 ≤ Int.tdiv g.frameCounter g.numberOfBoxes := by
    rw [Int.tdiv_eq_ediv hc (by omega)]
    exact Int.ediv_nonneg hc (by omega)
  unfold resolveOffset
  rw [localIndex_pos g hb, Option.some_bind]
  unfold xPositionAt
  rcases hs with hs | ⟨hlen, hcnt⟩
  · rw [rawXPosition_uniform s g _ hs hw hfc hL0]
    exact ⟨_, rfl, clampXPosition_mem s _ hw⟩
  · obtain ⟨i, hi, hi0, hi1⟩ := currentPercentage_range s g _ (by omega) hfc hL0 hL
    obtain ⟨v, hv, -⟩ := readSkip_of_lt g.skippingPercentages i hi0 (by omega)
    unfold rawXPosition
    rw [if_neg (by omega), hi, Option.some_bind, hv]
    exact ⟨_, rfl, clampXPosition_mem s _ hw⟩

/-- C2: in uniform mode (`skipCount = 0`), with a rectangle of width at least 1
and a frame count of at least 2, the marker column is exactly `x` when the
local index is 0 and exactly `x + w - 1` when it is `framecount - 1`. -/
theorem resolveOffset_endpoints (s : AudioMothAnimationContext) (g : Globals)
    (hw : 1 ≤ s.w) (hfc : 2 ≤ s.framecount) (hskip : g.skipCount = 0)
    (hb : 1 ≤ g.numberOfBoxes) :
    (Int.tdiv g.frameCounter g.numberOfBoxes = 0 → resolveOffset s g = some s.x) ∧
    (Int.tdiv g.frameCounter g.numberOfBoxes = s.framecount - 1 →
      resolveOffset s g = some (s.x + s.w - 1)) := by
  constructor
  · intro h0
    unfold resolveOffset xPositionAt
    rw [localIndex_pos g hb, Option.some_bind, h0,
      rawXPosition_uniform s g 0 hskip hw hfc (le_refl 0)]
    have h1 : (0 * (s.w - 1) + (s.framecount - 1) / 2) / (s.framecount - 1) = 0 := by
      rw [zero_mul, zero_add]
      exact Int.ediv_eq_zero_of_lt (by omega) (by omega)
    rw [h1, Option.map_some', clampXPosition_of_mem s (s.x + 0) (by omega) (by omega)]
    simp
  · intro h1
    unfold resolveOffset xPositionAt
    rw [localIndex_pos g hb, Option.some_bind, h1,
      rawXPosition_uniform s g _ hskip hw hfc (by omega)]
    have h2 : ((s.framecount - 1) * (s.w - 1) + (s.framecount - 1) / 2) / (s.framecount - 1)
        = s.w - 1 := by
      rw [mul_comm]
      exact mul_add_half_ediv _ _ (by omega)
    rw [h2, Option.map_some', clampXPosition_of_mem s (s.x + (s.w - 1)) (by omega) (by omega)]
    congr 1
    omega

/-- C3: in uniform mode, for one configuration with `framecount >= 2` and
`w >= framecount`, the marker column does not decrease when the local index
`frameCounter / numberOfBoxes` grows: for two states of the counters with local
indices `0 <= i <= j`, the column at `i` is at most the column at `j`. -/
theorem resolveOffset_monotone (s : AudioMothAnimationContext) (g1 g2 : Globals)
    (hfc : 2 ≤ s.framecount) (hw : s.framecount ≤ s.w)
    (hs1 : g1.skipCount = 0) (hs2 : g2.skipCount = 0)
    (hb1 : 1 ≤ g1.numberOfBoxes) (hb2 : 1 ≤ g2.numberOfBoxes)
    (hi : 0 ≤ Int.tdiv g1.frameCounter g1.numberOfBoxes)
    (hij : Int.tdiv g1.frameCounter g1.numberOfBoxes ≤
      Int.tdiv g2.frameCounter g2.numberOfBoxes) :
    ∃ p q, resolveOffset s g1 = some p ∧ resolveOffset s g2 = some q ∧ p ≤ q := by
  unfold resolveOffset xPositionAt
  rw [localIndex_pos g1 hb1, localIndex_pos g2 hb2, Option.some_bind, Option.some_bind,
    rawXPosition_uniform s g1 _ hs1 (by omega) hfc hi,
    rawXPosition_uniform s g2 _ hs2 (by omega) hfc (by omega)]
  refine ⟨_, _, rfl, rfl, clampXPosition_mono s _ _ ?_⟩
  have h1 : Int.tdiv g1.frameCounter g1.numberOfBoxes * (s.w - 1) ≤
      Int.tdiv g2.frameCounter g2.numberOfBoxes * (s.w - 1) :=
    Int.mul_le_mul_of_nonneg_right hij (by omega)
  have := half_up_mono _ _ (s.framecount - 1) (by omega) h1
  omega

/-- Round-half-up: `(a + b / 2) / b` is the floor of `a / b + 1 / 2`. -/
theorem half_up_eq_floor (a b : Int) (hb : 0 < b) :
    (a + b / 2) / b = ⌊(a : ℚ) / (b : ℚ) + 1 / 2⌋ := by
  symm
  rw [Int.floor_eq_iff]
  have hbq : (0 : ℚ) < (b : ℚ) := by exact_mod_cast hb
  have e1 : (a + b / 2) / b * b ≤ a + b / 2 := Int.ediv_mul_le _ (by omega)
  have e2 : a + b / 2 < ((a + b / 2) / b + 1) * b := Int.lt_ediv_add_one_mul_self _ hb
  generalize (a + b / 2) / b = z at e1 e2
  have e3 : 2 * (z * b) ≤ 2 * a + b := by omega
  have e4 : 2 * a + b < 2 * ((z + 1) * b) := by omega
  have q3 : 2 * ((z : ℚ) * b) ≤ 2 * a + b := by exact_mod_cast e3
  have q4 : 2 * (a : ℚ) + b < 2 * (((z : ℚ) + 1) * b) := by exact_mod_cast e4
  have hform : (a : ℚ) / (b : ℚ) + 1 / 2 = (2 * a + b) / (2 * b) := by
    field_simp
    ring
  rw [hform]
  constructor
  · rw [le_div_iff₀ (by positivity)]
    linarith
  · rw [div_lt_iff₀ (by positivity)]
    linarith

/-! ## Facts about the floating-point helpers -/

theorem bitLenAux_le (p fuel n : Nat) (h : n < 2 ^ p) : bitLenAux fuel n ≤ p := by
  induction fuel generalizing p n with
  | zero => exact Nat.zero_le p
  | succ f ih =>
    unfold bitLenAux
    split_ifs with h0
    · exact Nat.zero_le p
    · cases p with
      | zero => omega
      | succ q =>
        have h1 : n / 2 < 2 ^ q := by
          rw [pow_succ] at h
          omega
        have := ih q (n / 2) h1
        omega

/-- A number whose significand fits `p` bits is not changed by rounding. -/
theorem Fp.round_of_lt (p : Nat) (x : Fp) (h : x.m.natAbs < 2 ^ p) : Fp.round p x = x := by
  have hb : bitLen x.m.natAbs ≤ p := bitLenAux_le p _ _ h
  unfold Fp.round
  simp only
  rw [if_pos hb]

/-- An integral stored value is added as it is: with `xb` and the sum below
`2 ^ 24` in magnitude, line 293 gives `xb + m` for the stored value `m`. -/
theorem addSkip_integral (xb m : Int) (h1 : xb.natAbs < 2 ^ 24)
    (h2 : (xb + m).natAbs < 2 ^ 24) : addSkip xb (Fp.ofInt m) = xb + m := by
  unfold addSkip intToFloat floatAdd floatBits
  rw [Fp.round_of_lt 24 (Fp.ofInt xb) h1]
  have e : Fp.add (Fp.ofInt xb) (Fp.ofInt m) = Fp.ofInt (xb + m) := by
    simp [Fp.add, Fp.ofInt]
  rw [e, Fp.round_of_lt 24 (Fp.ofInt (xb + m)) h2]
  simp [Fp.trunc, Fp.ofInt]

/-- With a skip list loaded, the value of line 293 does not depend on the
width of the rectangle. -/
theorem rawXPosition_skip_width (s : AudioMothAnimationContext) (g : Globals) (L w : Int)
    (h : g.skipCount ≠ 0) : rawXPosition { s with w := w } g L = rawXPosition s g L := by
  unfold rawXPosition
  rw [if_neg h, if_neg h]
  rfl

theorem skipScenario_raw (w k L : Int) :
    rawXPosition (skipScenario w) (skipGlobals k) L =
      rawXPosition (skipScenario 0) (skipGlobals k) L :=
  rawXPosition_skip_width (skipScenario 0) (skipGlobals k) L w (by show (3 : Int) ≠ 0; decide)

/-- C4: `ROUNDED_DIV(a, b)` for `a >= 0`, `b > 0` is round-half-up division,
the floor of `a / b + 1 / 2` over the rationals, for odd and even `b` alike; so
in uniform mode the value of line 282 is `x` plus the round-half-up value of
`counter * (w - 1) / (framecount - 1)`, which is also the marker column while
the local index is at most `framecount - 1`; and for `x = 0`, `w = 10`,
`framecount = 5` the marker columns of frames 0..4 are 0, 2, 5, 7, 9. -/
theorem ROUNDED_DIV_round_half_up (a b : Int) (ha : 0 ≤ a) (hb : 0 < b)
    (s : AudioMothAnimationContext) (g : Globals) (L : Int)
    (hskip : g.skipCount = 0) (hw : 1 ≤ s.w) (hfc : 2 ≤ s.framecount)
    (hL : localIndex g = some L) (hL0 : 0 ≤ L) :
    ROUNDED_DIV a b = some ⌊(a : ℚ) / (b : ℚ) + 1 / 2⌋ ∧
    rawXPosition s g L =
      some (s.x + ⌊((L * (s.w - 1) : Int) : ℚ) / ((s.framecount - 1 : Int) : ℚ) + 1 / 2⌋) ∧
    (L ≤ s.framecount - 1 → resolveOffset s g =
      some (s.x + ⌊((L * (s.w - 1) : Int) : ℚ) / ((s.framecount - 1 : Int) : ℚ) + 1 / 2⌋)) ∧
    ([0, 1, 2, 3, 4] : List Int).map (fun k => resolveOffset uniformScenario (uniformGlobals k)) =
      [some 0, some 2, some 5, some 7, some 9] := by
  have hraw := rawXPosition_uniform s g L hskip hw hfc hL0
  rw [half_up_eq_floor _ _ (show (0 : Int) < s.framecount - 1 by omega)] at hraw
  refine ⟨?_, hraw, ?_, by decide⟩
  · rw [ROUNDED_DIV_pos a b ha hb, half_up_eq_floor a b hb]
  · intro hL1
    unfold resolveOffset xPositionAt
    rw [hL, Option.some_bind, hraw, Option.map_some',
      ← half_up_eq_floor _ _ (show (0 : Int) < s.framecount - 1 by omega)]
    have h0 : 0 ≤ (L * (s.w - 1) + (s.framecount - 1) / 2) / (s.framecount - 1) := by
      have := Int.mul_nonneg hL0 (show (0 : Int) ≤ s.w - 1 by omega)
      exact Int.ediv_nonneg (by omega) (by omega)
    have h1 : (L * (s.w - 1) + (s.framecount - 1) / 2) / (s.framecount - 1) ≤ s.w - 1 := by
      have h2 : L * (s.w - 1) ≤ (s.w - 1) * (s.framecount - 1) := by
        rw [mul_comm]
        exact Int.mul_le_mul_of_nonneg_left hL1 (by omega)
      calc (L * (s.w - 1) + (s.framecount - 1) / 2) / (s.framecount - 1)
          ≤ ((s.w - 1) * (s.framecount - 1) + (s.framecount - 1) / 2) / (s.framecount - 1) :=
            half_up_mono _ _ _ (by omega) h2
        _ = s.w - 1 := mul_add_half_ediv _ _ (by omega)
    rw [clampXPosition_of_mem s _ (by omega) (by omega)]

/-- C5: with a skip list of exactly `framecount >= 2` values, for every local
index `L` in `[0, framecount - 1]` the index of line 288 is `L` itself and the
value of line 293 is `x` plus the stored value number `L`, whatever the width
of the rectangle; an integral stored value `m` gives `x + m` (magnitudes below `2 ^ 24`);
for the list `"0|50|100"`, `framecount = 3` and `x = 0` the
values for `L = 0, 1, 2` are 0, 50, 100, and they are the marker columns when
the rectangle is wider than 100. -/
theorem skip_offset_verbatim (s : AudioMothAnimationContext) (g : Globals) (L : Int)
    (hfc : 2 ≤ s.framecount) (hcnt : g.skipCount = s.framecount)
    (hlen : (g.skippingPercentages.length : Int) = s.framecount)
    (hL0 : 0 ≤ L) (hL1 : L ≤ s.framecount - 1) :
    currentPercentage s g L = some L ∧
    (∃ v, g.skippingPercentages[L.toNat]? = some v ∧
      ∀ w, rawXPosition { s with w := w } g L = some (addSkip s.x v)) ∧
    (∀ m : Int, g.skippingPercentages[L.toNat]? = some (Fp.ofInt m) →
      s.x.natAbs < 2 ^ 24 → (s.x + m).natAbs < 2 ^ 24 →
      rawXPosition s g L = some (s.x + m)) ∧
    (∀ w, ([0, 1, 2] : List Int).map (fun k => rawXPosition (skipScenario w) (skipGlobals k) k) =
      [some 0, some 50, some 100]) ∧
    (∀ w, 100 < w →
      ([0, 1, 2] : List Int).map (fun k => resolveOffset (skipScenario w) (skipGlobals k)) =
        [some 0, some 50, some 100]) := by
  have hidx : currentPercentage s g L = some L := by
    unfold currentPercentage
    rw [ROUNDED_DIV_pos _ _ (Int.mul_nonneg (by omega) hL0) (by omega), hcnt, mul_comm,
      mul_add_half_ediv _ _ (by omega)]
  obtain ⟨v, hv, hv1⟩ := readSkip_of_lt g.skippingPercentages L hL0 (by omega)
  have hraw : ∀ w, rawXPosition { s with w := w } g L = some (addSkip s.x v) := by
    intro w
    have hidx1 : currentPercentage { s with w := w } g L = some L := hidx
    unfold rawXPosition
    rw [if_neg (by omega), hidx1, Option.some_bind, hv]
    rfl
  refine ⟨hidx, ⟨v, hv1, hraw⟩, ?_, ?_, ?_⟩
  · intro m hm h1 h2
    rw [hv1] at hm
    have hs := hraw s.w
    rw [Option.some.inj hm, addSkip_integral s.x m h1 h2] at hs
    exact hs
  · intro w
    rw [List.map_cons, List.map_cons, List.map_cons, List.map_nil,
      skipScenario_raw w 0 0, skipScenario_raw w 1 1, skipScenario_raw w 2 2]
    decide
  · intro w hw
    have e : ∀ p : Int, 0 ≤ p → p ≤ 100 → clampXPosition (skipScenario w) p = p := by
      intro p h0 h1
      apply clampXPosition_of_mem
      · exact h0
      · show p ≤ 0 + w - 1
        omega
    have l0 : localIndex (skipGlobals 0) = some 0 := by decide
    have l1 : localIndex (skipGlobals 1) = some 1 := by decide
    have l2 : localIndex (skipGlobals 2) = some 2 := by decide
    have r0 : rawXPosition (skipScenario 0) (skipGlobals 0) 0 = some 0 := by decide
    have r1 : rawXPosition (skipScenario 0) (skipGlobals 1) 1 = some 50 := by decide
    have r2 : rawXPosition (skipScenario 0) (skipGlobals 2) 2 = some 100 := by decide
    unfold resolveOffset xPositionAt
    rw [List.map_cons, List.map_cons, List.map_cons, List.map_nil, l0, l1, l2,
      Option.some_bind, Option.some_bind, Option.some_bind,
      skipScenario_raw w 0 0, skipScenario_raw w 1 1, skipScenario_raw w 2 2, r0, r1, r2,
      Option.map_some', Option.map_some', Option.map_some',
      e 0 (by omega) (by omega), e 50 (by omega) (by omega), e 100 (by omega) (by omega)]

/-- C6, the code at the fourth frame of a run with the skip list `"0|50|100"`
and `framecount = 3`: the index of line 288 is 3, which is past the last of the
three stored values, so the read of line 293 has no result. -/
theorem skip_index_past_end :
    currentPercentage (skipScenario 200) (skipGlobals 3) 3 = some 3 ∧
    readSkip (skipGlobals 3).skippingPercentages 3 = none ∧
    resolveOffset (skipScenario 200) (skipGlobals 3) = none := by
  decide

/-! ## Facts about the loops -/

/-- A property that every iteration keeps holds when the loop ends; the
iterations are at indices `i >= lo` that pass the loop condition. -/
theorem forLoop_invariant {σ : Type} (cond : Int → Bool) (body : Int → σ → σ)
    (I : σ → Prop) (fuel : Nat) (lo : Int) (st : σ)
    (hbody : ∀ i st, lo ≤ i → cond i = true → I st → I (body i st)) (h0 : I st) :
    I (forLoop cond body fuel lo st) := by
  induction fuel generalizing lo st with
  | zero => exact h0
  | succ n ih =>
    unfold forLoop
    split_ifs with hc
    · exact ih (lo + 1) (body lo st) (fun i st1 hi => hbody i st1 (by omega))
        (hbody lo st (le_refl lo) hc h0)
    · exact h0

/-- A loop bounded by `i < b` has ended by its condition once `fuel` reaches
`b - lo`: more fuel does not change the result. -/
theorem forLoop_fuel {σ : Type} (cond : Int → Bool) (body : Int → σ → σ) (b : Int)
    (hcond : ∀ i, cond i = true → i < b) (fuel extra : Nat) (lo : Int) (st : σ)
    (hfuel : (b - lo).toNat ≤ fuel) :
    forLoop cond body (fuel + extra) lo st = forLoop cond body fuel lo st := by
  induction fuel generalizing lo st with
  | zero =>
    have hlo : ¬ cond lo = true := fun h => by have := hcond lo h; omega
    cases extra with
    | zero => rfl
    | succ e =>
      rw [Nat.zero_add]
      unfold forLoop
      rw [if_neg hlo]
  | succ n ih =>
    have e : n + 1 + extra = (n + extra) + 1 := by omega
    rw [e]
    unfold forLoop
    split_ifs with hc
    · exact ih (lo + 1) (body lo st) (by omega)
    · rfl

/-- A loop over `[lo, min a b)` whose body acts at the index `t` only. -/
theorem forLoop_once {σ : Type} (a b t : Int) (f : Int → σ → σ) (fuel : Nat) (lo : Int)
    (st : σ) (hf : (b - lo).toNat ≤ fuel) :
    forLoop (fun x => decide (x < a) && decide (x < b))
        (fun x st => if x = t then f x st else st) fuel lo st =
      if lo ≤ t ∧ t < a ∧ t < b then f t st else st := by
  induction fuel generalizing lo st with
  | zero =>
    unfold forLoop
    rw [if_neg (by omega)]
  | succ n ih =>
    unfold forLoop
    by_cases hc : lo < a ∧ lo < b
    · have hc1 : (decide (lo < a) && decide (lo < b)) = true := by
        simp [hc.1, hc.2]
      rw [if_pos hc1, ih (lo + 1) _ (by omega)]
      by_cases ht : lo = t
      · subst ht
        rw [if_pos rfl, if_neg (by omega), if_pos ⟨le_refl _, hc.1, hc.2⟩]
      · rw [if_neg ht]
        by_cases h1 : lo + 1 ≤ t ∧ t < a ∧ t < b
        · rw [if_pos h1, if_pos ⟨by omega, h1.2.1, h1.2.2⟩]
        · rw [if_neg h1, if_neg (by omega)]
    · have hc1 : ¬ (decide (lo < a) && decide (lo < b)) = true := by
        simpa using hc
      rw [if_neg hc1, if_neg (by omega)]

/-- The loop over `x` runs the pixel code once, at `xPosition`, when that
column is visited, and does nothing otherwise. -/
theorem columnLoop_eq (s : AudioMothAnimationContext) (width xPosition : Int)
    (pixel : Int → PaintState → PaintState) (st : PaintState) :
    columnLoop s width xPosition pixel st =
      if colScanned s width xPosition then pixel xPosition st else st := by
  unfold columnLoop
  rw [forLoop_once _ _ _ _ _ _ _ (le_refl _)]
  rfl

/-- The quotient of line 341 is defined: the divisor is 255. -/
theorem blendAlpha_eq (a : Byte) :
    doubleDiv (Fp.ofInt (ofByte a)) (Fp.ofInt 255) = some (blendAlpha a) := by
  unfold blendAlpha doubleDiv Fp.div
  rw [if_neg (by decide)]
  rfl

/-- The loop over `x` ends by its condition: more fuel gives the same state. -/
theorem columnLoop_fuel (s : AudioMothAnimationContext) (width xPosition : Int)
    (pixel : Int → PaintState → PaintState) (st : PaintState) (extra : Nat) :
    forLoop (fun x => decide (x < s.x + s.w) && decide (x < width))
        (fun x st => if x = xPosition then pixel x st else st)
        ((width - FFMAX s.x 0).toNat + extra) (FFMAX s.x 0) st =
      columnLoop s width xPosition pixel st :=
  forLoop_fuel _ _ width (fun i h => by
    simp only [Bool.and_eq_true, decide_eq_true_eq] at h
    exact h.2) _ _ _ _ (le_refl _)

/-- The loop over `y` ends by its condition: more fuel gives the same state. -/
theorem rowLoop_fuel (s : AudioMothAnimationContext) (height : Int)
    (row : Int → PaintState → PaintState) (st : PaintState) (extra : Nat) :
    forLoop (fun y => decide (y < height) && decide (y < s.y + s.h)) row
        ((height - FFMAX s.y 0).toNat + extra) (FFMAX s.y 0) st =
      rowLoop s height row st :=
  forLoop_fuel _ _ height (fun i h => by
    simp only [Bool.and_eq_true, decide_eq_true_eq] at h
    exact h.1) _ _ _ _ (le_refl _)

theorem rowLoop_cond (s : AudioMothAnimationContext) (height y : Int)
    (hlo : FFMAX s.y 0 ≤ y)
    (hc : (decide (y < height) && decide (y < s.y + s.h)) = true) :
    rowScanned s height y := by
  simp only [Bool.and_eq_true, decide_eq_true_eq] at hc
  exact ⟨hlo, hc.1, hc.2⟩

/-- A property of the state that the pixel code of the selected paint mode
keeps, at every visited row and at the marker column when it is visited, holds
after the pixel loops. -/
theorem paint_invariant (s : AudioMothAnimationContext) (width height xPosition : Int)
    (I : PaintState → Prop) (st : PaintState)
    (hinv : s.invert_color = true → ∀ y st, rowScanned s height y →
      colScanned s width xPosition → I st → I (invertPixel y xPosition st))
    (hrep : s.invert_color = false → s.have_alpha = true → s.replace = true →
      ∀ y st, rowScanned s height y → colScanned s width xPosition → I st →
        I (replacePixel s y xPosition st))
    (hbl : s.invert_color = false → (s.have_alpha && s.replace) = false →
      ∀ y st, rowScanned s height y → colScanned s width xPosition → I st →
        I (blendPixel s y xPosition st))
    (h0 : I st) : I (paint s width height xPosition st) := by
  unfold paint rowLoop
  by_cases hmode : (s.have_alpha && s.replace) = true
  · rw [if_pos hmode]
    apply forLoop_invariant _ _ I _ _ _ _ h0
    intro y st1 hlo hc h1
    have hrow := rowLoop_cond s height y hlo hc
    simp only [Bool.and_eq_true] at hmode
    rw [columnLoop_eq, columnLoop_eq]
    by_cases hi : s.invert_color = true
    · rw [if_pos hi]
      split_ifs with hcol
      · exact hinv hi y st1 hrow hcol h1
      · exact h1
    · rw [if_neg hi]
      split_ifs with hcol
      · exact hrep (by simpa using hi) hmode.1 hmode.2 y st1 hrow hcol h1
      · exact h1
  · rw [if_neg hmode]
    apply forLoop_invariant _ _ I _ _ _ _ h0
    intro y st1 hlo hc h1
    have hrow := rowLoop_cond s height y hlo hc
    rw [columnLoop_eq, columnLoop_eq]
    by_cases hi : s.invert_color = true
    · rw [if_pos hi]
      split_ifs with hcol
      · exact hinv hi y st1 hrow hcol h1
      · exact h1
    · rw [if_neg hi]
      split_ifs with hcol
      · exact hbl (by simpa using hi) (by simpa using hmode) y st1 hrow hcol h1
      · exact h1

theorem store_data_ne (st : PaintState) (p : Nat) (r c : Int) (v : Byte)
    (p1 : Nat) (r1 c1 : Int) (h : ¬ (p1 = p ∧ r1 = r ∧ c1 = c)) :
    (store st p r c v).data p1 r1 c1 = st.data p1 r1 c1 := by
  unfold store
  exact if_neg h

/-! ## The claims on the pixel loops -/

/-- C7: whatever the frame, the configuration, the paint mode and the marker
column, the pixel loops change nothing but the marker: a sample of plane 0 or 3
that is not at column `xPosition` of a visited row, and a sample of plane 1 or
2 that is not at column `xPosition >> hsub` of the row `y >> vsub` of a visited
row `y`, holds the value it held before. -/
theorem composite_only_marker (s : AudioMothAnimationContext) (xPosition : Int)
    (frame : AVFrame) (p : Nat) (r c : Int)
    (h : ¬ markerSample s frame.height xPosition p r c) :
    (composite s xPosition frame).data p r c = frame.data p r c := by
  have key : ∀ p r c, ¬ markerSample s frame.height xPosition p r c →
      (composite s xPosition frame).data p r c = frame.data p r c := by
    unfold composite
    apply paint_invariant s frame.width frame.height xPosition
      (fun st => ∀ p r c, ¬ markerSample s frame.height xPosition p r c →
        st.data p r c = frame.data p r c)
    · intro _ y st hrow _ hI p r c hm0
      have hm := hm0
      unfold markerSample at hm
      unfold invertPixel
      rw [store_data_ne _ _ _ _ _ _ _ _ (fun e => hm _), hI p r c hm0]
      intro e
      exact Or.inl ⟨Or.inl e.1, e.2.2, by rw [e.2.1]; exact hrow⟩
    · intro _ _ _ y st hrow _ hI p r c hm0
      have hm := hm0
      unfold markerSample at hm
      unfold replacePixel
      rw [store_data_ne _ _ _ _ _ _ _ _ (fun e => hm _),
        store_data_ne _ _ _ _ _ _ _ _ (fun e => hm _),
        store_data_ne _ _ _ _ _ _ _ _ (fun e => hm _),
        store_data_ne _ _ _ _ _ _ _ _ (fun e => hm _), hI p r c hm0]
      · intro e
        exact Or.inl ⟨Or.inl e.1, e.2.2, by rw [e.2.1]; exact hrow⟩
      · intro e
        exact Or.inr ⟨Or.inl e.1, e.2.2, y, hrow, e.2.1⟩
      · intro e
        exact Or.inr ⟨Or.inr e.1, e.2.2, y, hrow, e.2.1⟩
      · intro e
        exact Or.inl ⟨Or.inr e.1, e.2.2, by rw [e.2.1]; exact hrow⟩
    · intro _ _ y st hrow _ hI p r c hm0
      have hm := hm0
      unfold markerSample at hm
      unfold blendPixel
      rw [store_data_ne _ _ _ _ _ _ _ _ (fun e => hm _),
        store_data_ne _ _ _ _ _ _ _ _ (fun e => hm _),
        store_data_ne _ _ _ _ _ _ _ _ (fun e => hm _), hI p r c hm0]
      · intro e
        exact Or.inl ⟨Or.inl e.1, e.2.2, by rw [e.2.1]; exact hrow⟩
      · intro e
        exact Or.inr ⟨Or.inl e.1, e.2.2, y, hrow, e.2.1⟩
      · intro e
        exact Or.inr ⟨Or.inr e.1, e.2.2, y, hrow, e.2.1⟩
    · intro p r c _
      rfl
  exact key p r c h

/-- C8: whatever the frame and the rectangle (negative `x` or `y`, a rectangle
that extends past the right or the bottom edge), every store of the pixel loops
is inside the frame: planes 0 and 3 are stored at a row `0 <= y < height` and a
column `0 <= x < width`, planes 1 and 2 at `(y >> vsub, x >> hsub)` for such
`y` and `x`, and plane 3 only when the format has alpha. -/
theorem composite_stores_in_frame (s : AudioMothAnimationContext) (xPosition : Int)
    (frame : AVFrame) (pos : Nat × Int × Int)
    (h : pos ∈ (composite s xPosition frame).stores) :
    storeInFrame s frame.width frame.height pos := by
  have key : ∀ pos ∈ (composite s xPosition frame).stores,
      storeInFrame s frame.width frame.height pos := by
    unfold composite
    have hrange : ∀ y, rowScanned s frame.height y → colScanned s frame.width xPosition →
        0 ≤ y ∧ y < frame.height ∧ 0 ≤ xPosition ∧ xPosition < frame.width := by
      intro y hrow hcol
      unfold rowScanned FFMAX at hrow
      unfold colScanned FFMAX at hcol
      split_ifs at hrow hcol <;> omega
    apply paint_invariant s frame.width frame.height xPosition
      (fun st => ∀ pos ∈ st.stores, storeInFrame s frame.width frame.height pos)
    · intro _ y st hrow hcol hI pos hpos
      obtain ⟨h1, h2, h3, h4⟩ := hrange y hrow hcol
      unfold invertPixel store at hpos
      rcases List.mem_cons.mp hpos with e | e
      · subst e
        exact ⟨fun h => absurd h (by simp), y, xPosition, h1, h2, h3, h4,
          Or.inl ⟨Or.inl rfl, rfl, rfl⟩⟩
      · exact hI pos e
    · intro _ ha _ y st hrow hcol hI pos hpos
      obtain ⟨h1, h2, h3, h4⟩ := hrange y hrow hcol
      unfold replacePixel store at hpos
      rcases List.mem_cons.mp hpos with e | hpos
      · subst e
        exact ⟨fun _ => ha, y, xPosition, h1, h2, h3, h4, Or.inl ⟨Or.inr rfl, rfl, rfl⟩⟩
      rcases List.mem_cons.mp hpos with e | hpos
      · subst e
        exact ⟨fun h => absurd h (by simp), y, xPosition, h1, h2, h3, h4,
          Or.inr ⟨Or.inr rfl, rfl, rfl⟩⟩
      rcases List.mem_cons.mp hpos with e | hpos
      · subst e
        exact ⟨fun h => absurd h (by simp), y, xPosition, h1, h2, h3, h4,
          Or.inr ⟨Or.inl rfl, rfl, rfl⟩⟩
      rcases List.mem_cons.mp hpos with e | hpos
      · subst e
        exact ⟨fun h => absurd h (by simp), y, xPosition, h1, h2, h3, h4,
          Or.inl ⟨Or.inl rfl, rfl, rfl⟩⟩
      exact hI pos hpos
    · intro _ _ y st hrow hcol hI pos hpos
      obtain ⟨h1, h2, h3, h4⟩ := hrange y hrow hcol
      unfold blendPixel store at hpos
      rcases List.mem_cons.mp hpos with e | hpos
      · subst e
        exact ⟨fun h => absurd h (by simp), y, xPosition, h1, h2, h3, h4,
          Or.inr ⟨Or.inr rfl, rfl, rfl⟩⟩
      rcases List.mem_cons.mp hpos with e | hpos
      · subst e
        exact ⟨fun h => absurd h (by simp), y, xPosition, h1, h2, h3, h4,
          Or.inr ⟨Or.inl rfl, rfl, rfl⟩⟩
      rcases List.mem_cons.mp hpos with e | hpos
      · subst e
        exact ⟨fun h => absurd h (by simp), y, xPosition, h1, h2, h3, h4,
          Or.inl ⟨Or.inl rfl, rfl, rfl⟩⟩
      exact hI pos hpos
    · intro pos hpos
      exact absurd hpos (List.not_mem_nil pos)
  exact key pos h

/-! ## Invert mode -/

theorem forLoop_id {σ : Type} (cond : Int → Bool) (fuel : Nat) (lo : Int) (st : σ) :
    forLoop cond (fun _ st => st) fuel lo st = st :=
  forLoop_invariant cond (fun _ st => st) (fun t => t = st) fuel lo st
    (fun _ _ _ _ h => h) rfl

/-- Samples after the loop over `y` when every visited row gets its sample of
plane 0 at column `x` inverted. -/
theorem forLoop_invert_data (a b x : Int) (fuel : Nat) (lo : Int) (st : PaintState)
    (hf : (a - lo).toNat ≤ fuel) (p : Nat) (r c : Int) :
    (forLoop (fun y => decide (y < a) && decide (y < b))
        (fun y st => invertPixel y x st) fuel lo st).data p r c =
      if p = 0 ∧ c = x ∧ lo ≤ r ∧ r < a ∧ r < b then
        toByte (0xff - ofByte (st.data p r c))
      else st.data p r c := by
  induction fuel generalizing lo st with
  | zero =>
    unfold forLoop
    rw [if_neg (by omega)]
  | succ n ih =>
    unfold forLoop
    by_cases hc : lo < a ∧ lo < b
    · have hc1 : (decide (lo < a) && decide (lo < b)) = true := by
        simp [hc.1, hc.2]
      rw [if_pos hc1, ih (lo + 1) _ (by omega)]
      by_cases ht : p = 0 ∧ r = lo ∧ c = x
      · obtain ⟨hp, hr, hcx⟩ := ht
        subst hp hr hcx
        rw [if_neg (by omega), if_pos ⟨rfl, rfl, le_refl _, hc.1, hc.2⟩]
        unfold invertPixel store
        simp
      · have hsame : (invertPixel lo x st).data p r c = st.data p r c :=
          store_data_ne _ _ _ _ _ _ _ _ ht
        rw [hsame]
        by_cases h1 : p = 0 ∧ c = x ∧ lo + 1 ≤ r ∧ r < a ∧ r < b
        · rw [if_pos h1, if_pos ⟨h1.1, h1.2.1, by omega, h1.2.2.2.1, h1.2.2.2.2⟩]
        · rw [if_neg h1, if_neg]
          intro h2
          apply h1
          refine ⟨h2.1, h2.2.1, ?_, h2.2.2.2.1, h2.2.2.2.2⟩
          have : r ≠ lo := fun e => ht ⟨h2.1, e, h2.2.1⟩
          omega
    · have hc1 : ¬ (decide (lo < a) && decide (lo < b)) = true := by
        simpa using hc
      rw [if_neg hc1, if_neg (by omega)]

/-- In invert mode the pixel loops are the loop over `y` with one inversion
per visited row, or nothing when the marker column is not visited. -/
theorem paint_invert (s : AudioMothAnimationContext) (hinv : s.invert_color = true)
    (width height xPosition : Int) (st : PaintState) :
    paint s width height xPosition st =
      if colScanned s width xPosition then
        rowLoop s height (fun y st => invertPixel y xPosition st) st
      else st := by
  have hrow : ∀ (alt : Int → Int → PaintState → PaintState),
      (fun (y : Int) (st : PaintState) =>
        if s.invert_color = true then columnLoop s width xPosition (invertPixel y) st
        else columnLoop s width xPosition (alt y) st) =
      fun y st => if colScanned s width xPosition then invertPixel y xPosition st else st := by
    intro alt
    funext y st
    rw [if_pos hinv, columnLoop_eq]
  unfold paint
  rw [hrow, hrow, ite_self]
  by_cases hcol : colScanned s width xPosition
  · simp only [if_pos hcol]
  · simp only [if_neg hcol]
    unfold rowLoop
    exact forLoop_id _ _ _ _

/-- Samples of a frame after the pixel loops in invert mode. -/
theorem composite_invert_data (s : AudioMothAnimationContext)
    (hinv : s.invert_color = true) (xPosition : Int) (frame : AVFrame)
    (p : Nat) (r c : Int) :
    (composite s xPosition frame).data p r c =
      if p = 0 ∧ c = xPosition ∧ colScanned s frame.width xPosition ∧
          rowScanned s frame.height r then
        toByte (0xff - ofByte (frame.data p r c))
      else frame.data p r c := by
  unfold composite
  rw [paint_invert s hinv]
  by_cases hcol : colScanned s frame.width xPosition
  · rw [if_pos hcol]
    unfold rowLoop
    rw [forLoop_invert_data _ _ _ _ _ _ (le_refl _)]
    unfold rowScanned
    by_cases h1 : p = 0 ∧ c = xPosition ∧ FFMAX s.y 0 ≤ r ∧ r < frame.height ∧ r < s.y + s.h
    · rw [if_pos h1, if_pos ⟨h1.1, h1.2.1, hcol, h1.2.2⟩]
    · rw [if_neg h1, if_neg (fun h2 => h1 ⟨h2.1, h2.2.1, h2.2.2.2⟩)]
  · rw [if_neg hcol, if_neg (fun h2 => hcol h2.2.2.1)]

theorem toByte_invert_val (v : Byte) : (toByte (0xff - ofByte v)).val = 255 - v.val := by
  unfold toByte ofByte
  have := v.isLt
  simp only
  omega

theorem toByte_invert_invert (v : Byte) :
    toByte (0xff - ofByte (toByte (0xff - ofByte v))) = v := by
  apply Fin.ext
  rw [toByte_invert_val, toByte_invert_val]
  have := v.isLt
  omega

/-- C9: with `invert_color` set, whatever `replace` and `have_alpha` are, the
pixel loops replace the sample of plane 0 at the marker column of every
visited row by 255 minus its value, when the marker column is visited, and
leave every other sample of plane 0 and the whole of planes 1, 2 and 3 as they
were. -/
theorem composite_invert (s : AudioMothAnimationContext) (hinv : s.invert_color = true)
    (xPosition : Int) (frame : AVFrame) :
    (∀ y, rowScanned s frame.height y → colScanned s frame.width xPosition →
      ((composite s xPosition frame).data 0 y xPosition).val =
        255 - (frame.data 0 y xPosition).val) ∧
    (∀ p r c, p ≠ 0 → (composite s xPosition frame).data p r c = frame.data p r c) ∧
    (∀ r c, ¬ (c = xPosition ∧ colScanned s frame.width xPosition ∧
        rowScanned s frame.height r) →
      (composite s xPosition frame).data 0 r c = frame.data 0 r c) := by
  refine ⟨?_, ?_, ?_⟩
  · intro y hrow hcol
    rw [composite_invert_data s hinv, if_pos ⟨rfl, rfl, hcol, hrow⟩, toByte_invert_val]
  · intro p r c hp
    rw [composite_invert_data s hinv, if_neg (fun h => hp h.1)]
  · intro r c h
    rw [composite_invert_data s hinv, if_neg (fun h1 => h h1.2)]

/-- C10: in invert mode, running the pixel loops twice with the same rectangle
and the same marker column gives back the frame: every sample inverted by the
first run is inverted again by the second, and `255 - (255 - v) = v`. -/
theorem composite_invert_involution (s : AudioMothAnimationContext)
    (hinv : s.invert_color = true) (xPosition : Int) (frame : AVFrame) :
    compositeFrame s xPosition (compositeFrame s xPosition frame) = frame := by
  have hdata : (composite s xPosition (compositeFrame s xPosition frame)).data = frame.data := by
    funext p r c
    rw [composite_invert_data s hinv]
    show (if p = 0 ∧ c = xPosition ∧ colScanned s frame.width xPosition ∧
          rowScanned s frame.height r then
        toByte (0xff - ofByte ((composite s xPosition frame).data p r c))
      else (composite s xPosition frame).data p r c) = frame.data p r c
    rw [composite_invert_data s hinv]
    split_ifs
    · exact toByte_invert_invert _
    · rfl
  unfold compositeFrame
  rw [show ({ frame with data := (composite s xPosition frame).data } : AVFrame) =
    compositeFrame s xPosition frame from rfl, hdata]
  rfl

/-! ## The claims at concrete inputs -/

theorem resolveOffset_in_rect_witness :
    ∃ p, resolveOffset (skipScenario 200) (skipGlobals 1) = some p ∧
      (skipScenario 200).x ≤ p ∧ p ≤ (skipScenario 200).x + (skipScenario 200).w - 1 :=
  resolveOffset_in_rect (skipScenario 200) (skipGlobals 1) (by decide) (by decide)
    (by decide) (by decide) (by decide) (Or.inr ⟨by decide, by decide⟩)

theorem resolveOffset_endpoints_witness :
    resolveOffset uniformScenario (uniformGlobals 4) =
      some (uniformScenario.x + uniformScenario.w - 1) :=
  (resolveOffset_endpoints uniformScenario (uniformGlobals 4) (by decide) (by decide) rfl
    (by decide)).2 (by decide)

theorem resolveOffset_monotone_witness :
    ∃ p q, resolveOffset uniformScenario (uniformGlobals 1) = some p ∧
      resolveOffset uniformScenario (uniformGlobals 3) = some q ∧ p ≤ q :=
  resolveOffset_monotone uniformScenario (uniformGlobals 1) (uniformGlobals 3) (by decide)
    (by decide) rfl rfl (by decide) (by decide) (by decide) (by decide)

theorem ROUNDED_DIV_round_half_up_witness :
    ROUNDED_DIV 7 2 = some ⌊((7 : Int) : ℚ) / ((2 : Int) : ℚ) + 1 / 2⌋ :=
  (ROUNDED_DIV_round_half_up 7 2 (by decide) (by decide) uniformScenario (uniformGlobals 2) 2
    rfl (by decide) (by decide) (by decide) (by decide)).1

theorem skip_offset_verbatim_witness :
    currentPercentage (skipScenario 200) (skipGlobals 1) 1 = some 1 :=
  (skip_offset_verbatim (skipScenario 200) (skipGlobals 1) 1 (by decide) (by decide)
    (by decide) (by decide) (by decide)).1

theorem composite_only_marker_witness :
    (composite blendScenario 2 sampleFrame).data 0 0 1 = sampleFrame.data 0 0 1 :=
  composite_only_marker blendScenario 2 sampleFrame 0 0 1
    (fun h => h.elim (fun a => absurd a.2.1 (by decide))
      (fun b => b.1.elim (fun e => absurd e (by decide)) (fun e => absurd e (by decide))))

theorem composite_stores_in_frame_witness :
    storeInFrame blendScenario sampleFrame.width sampleFrame.height (1, 0, 1) :=
  composite_stores_in_frame blendScenario 2 sampleFrame (1, 0, 1) (by decide)

theorem composite_invert_witness :
    ((composite invertScenario 2 sampleFrame).data 0 1 2).val =
      255 - (sampleFrame.data 0 1 2).val :=
  (composite_invert invertScenario rfl 2 sampleFrame).1 1 (by decide) (by decide)

theorem composite_invert_involution_witness :
    compositeFrame invertScenario 2 (compositeFrame invertScenario 2 sampleFrame) =
      sampleFrame :=
  composite_invert_involution invertScenario rfl 2 sampleFrame

/-! ## Replace mode and blend mode -/

theorem store_data_eq (st : PaintState) (p : Nat) (r c : Int) (v : Byte) :
    (store st p r c v).data p r c = v := by
  unfold store
  exact if_pos ⟨rfl, rfl, rfl⟩

/-- A sample after a store: the stored value at the stored position, the
earlier value elsewhere. -/
theorem store_data (st : PaintState) (p : Nat) (r c : Int) (v : Byte)
    (p1 : Nat) (r1 c1 : Int) :
    (store st p r c v).data p1 r1 c1 =
      if p1 = p ∧ r1 = r ∧ c1 = c then v else st.data p1 r1 c1 := rfl

/-- Samples after the four stores of the replace path. -/
theorem replacePixel_data (s : AudioMothAnimationContext) (y x : Int) (st : PaintState)
    (p : Nat) (r c : Int) :
    (replacePixel s y x st).data p r c =
      if p = 3 ∧ r = y ∧ c = x then s.yuv_color 3
      else if p = 2 ∧ r = y >>> s.vsub ∧ c = x >>> s.hsub then s.yuv_color 2
      else if p = 1 ∧ r = y >>> s.vsub ∧ c = x >>> s.hsub then s.yuv_color 1
      else if p = 0 ∧ r = y ∧ c = x then s.yuv_color 0
      else st.data p r c := rfl

theorem replacePixel_data0 (s : AudioMothAnimationContext) (y x : Int) (st : PaintState)
    (r c : Int) :
    (replacePixel s y x st).data 0 r c =
      if r = y ∧ c = x then s.yuv_color 0 else st.data 0 r c := by
  simp [replacePixel_data]

theorem replacePixel_data1 (s : AudioMothAnimationContext) (y x : Int) (st : PaintState)
    (r c : Int) :
    (replacePixel s y x st).data 1 r c =
      if r = y >>> s.vsub ∧ c = x >>> s.hsub then s.yuv_color 1 else st.data 1 r c := by
  simp [replacePixel_data]

theorem replacePixel_data2 (s : AudioMothAnimationContext) (y x : Int) (st : PaintState)
    (r c : Int) :
    (replacePixel s y x st).data 2 r c =
      if r = y >>> s.vsub ∧ c = x >>> s.hsub then s.yuv_color 2 else st.data 2 r c := by
  simp [replacePixel_data]

theorem replacePixel_data3 (s : AudioMothAnimationContext) (y x : Int) (st : PaintState)
    (r c : Int) :
    (replacePixel s y x st).data 3 r c =
      if r = y ∧ c = x then s.yuv_color 3 else st.data 3 r c := by
  simp [replacePixel_data]

/-- With `have_alpha` and `replace` set and `invert_color` clear, the pixel
loops are the loop over `y` with the four stores of the replace path per
visited row, or nothing when the marker column is not visited. -/
theorem paint_replace (s : AudioMothAnimationContext) (hinv : s.invert_color = false)
    (ha : s.have_alpha = true) (hr : s.replace = true)
    (width height xPosition : Int) (st : PaintState) :
    paint s width height xPosition st =
      if colScanned s width xPosition then
        rowLoop s height (fun y st => replacePixel s y xPosition st) st
      else st := by
  have hrow : (fun (y : Int) (st : PaintState) =>
        if s.invert_color = true then columnLoop s width xPosition (invertPixel y) st
        else columnLoop s width xPosition (replacePixel s y) st) =
      fun y st => if colScanned s width xPosition then replacePixel s y xPosition st
        else st := by
    funext y st
    rw [if_neg (by simp [hinv]), columnLoop_eq]
  unfold paint
  rw [if_pos (by simp [ha, hr]), hrow]
  by_cases hcol : colScanned s width xPosition
  · simp only [if_pos hcol]
  · simp only [if_neg hcol]
    unfold rowLoop
    exact forLoop_id _ _ _ _

/-- Outside the `have_alpha && replace` branch, with `invert_color` clear, the
pixel loops are the loop over `y` with the three stores of the blend path per
visited row, or nothing when the marker column is not visited. -/
theorem paint_blend (s : AudioMothAnimationContext) (hinv : s.invert_color = false)
    (hmode : (s.have_alpha && s.replace) = false)
    (width height xPosition : Int) (st : PaintState) :
    paint s width height xPosition st =
      if colScanned s width xPosition then
        rowLoop s height (fun y st => blendPixel s y xPosition st) st
      else st := by
  have hrow : (fun (y : Int) (st : PaintState) =>
        if s.invert_color = true then columnLoop s width xPosition (invertPixel y) st
        else columnLoop s width xPosition (blendPixel s y) st) =
      fun y st => if colScanned s width xPosition then blendPixel s y xPosition st
        else st := by
    funext y st
    rw [if_neg (by simp [hinv]), columnLoop_eq]
  unfold paint
  rw [if_neg (by simp [hmode]), hrow]
  by_cases hcol : colScanned s width xPosition
  · simp only [if_pos hcol]
  · simp only [if_neg hcol]
    unfold rowLoop
    exact forLoop_id _ _ _ _

/-- A property that the iteration at `y0` establishes and that every iteration
keeps holds when a loop over `[lo, min a b)` that visits `y0` ends. -/
theorem forLoop_reaches {σ : Type} (a b : Int) (body : Int → σ → σ) (P : σ → Prop)
    (y0 : Int) (hy : y0 < a ∧ y0 < b)
    (hest : ∀ st, P (body y0 st)) (hpres : ∀ i st, P st → P (body i st))
    (fuel : Nat) (lo : Int) (st : σ) (hlo : lo ≤ y0) (hf : (a - lo).toNat ≤ fuel) :
    P (forLoop (fun y => decide (y < a) && decide (y < b)) body fuel lo st) := by
  induction fuel generalizing lo st with
  | zero => omega
  | succ n ih =>
    unfold forLoop
    have hc1 : (decide (lo < a) && decide (lo < b)) = true := by
      simp only [Bool.and_eq_true, decide_eq_true_eq]
      omega
    rw [if_pos hc1]
    by_cases e : lo = y0
    · subst e
      exact forLoop_invariant _ _ P _ _ _ (fun i st1 _ _ h => hpres i st1 h) (hest st)
    · exact ih (lo + 1) (body lo st) (by omega) (by omega)

/-- The columns that `resolveOffset` can return are visited as soon as they are
inside the frame. -/
theorem colScanned_of_clamped (s : AudioMothAnimationContext) (width xPosition : Int)
    (h1 : s.x ≤ xPosition) (h2 : xPosition ≤ s.x + s.w - 1)
    (h3 : 0 ≤ xPosition) (h4 : xPosition < width) : colScanned s width xPosition := by
  unfold colScanned FFMAX
  split_ifs <;> omega

/-- C11: in replace mode (`have_alpha` and `replace` set, `invert_color`
clear), for every frame and every visited row `y`, when the marker column (a
column of the rectangle, `x <= xPosition <= x + w - 1`, as lines 297-299 give
it) lies inside the frame, after the pixel loops plane 0 at `(y, xPosition)` holds the configured Y byte, planes 1 and 2
at `(y >> vsub, xPosition >> hsub)` hold the configured U and V bytes and plane
3 at `(y, xPosition)` holds the configured alpha byte, whatever the frame held
before. -/
theorem composite_replace (s : AudioMothAnimationContext) (hinv : s.invert_color = false)
    (ha : s.have_alpha = true) (hr : s.replace = true) (xPosition : Int) (frame : AVFrame)
    (y : Int) (hrow : rowScanned s frame.height y)
    (hrect : s.x ≤ xPosition ∧ xPosition ≤ s.x + s.w - 1)
    (hin : 0 ≤ xPosition ∧ xPosition < frame.width) :
    (composite s xPosition frame).data 0 y xPosition = s.yuv_color 0 ∧
    (composite s xPosition frame).data 1 (y >>> s.vsub) (xPosition >>> s.hsub) =
      s.yuv_color 1 ∧
    (composite s xPosition frame).data 2 (y >>> s.vsub) (xPosition >>> s.hsub) =
      s.yuv_color 2 ∧
    (composite s xPosition frame).data 3 y xPosition = s.yuv_color 3 := by
  have hcol : colScanned s frame.width xPosition :=
    colScanned_of_clamped s frame.width xPosition hrect.1 hrect.2 hin.1 hin.2
  unfold composite
  rw [paint_replace s hinv ha hr, if_pos hcol]
  unfold rowLoop
  apply forLoop_reaches frame.height (s.y + s.h)
    (fun y st => replacePixel s y xPosition st)
    (fun st => st.data 0 y xPosition = s.yuv_color 0 ∧
      st.data 1 (y >>> s.vsub) (xPosition >>> s.hsub) = s.yuv_color 1 ∧
      st.data 2 (y >>> s.vsub) (xPosition >>> s.hsub) = s.yuv_color 2 ∧
      st.data 3 y xPosition = s.yuv_color 3) y ⟨hrow.2.1, hrow.2.2⟩
  · intro st
    rw [replacePixel_data0, replacePixel_data1, replacePixel_data2, replacePixel_data3,
      if_pos ⟨rfl, rfl⟩, if_pos ⟨rfl, rfl⟩, if_pos ⟨rfl, rfl⟩, if_pos ⟨rfl, rfl⟩]
    exact ⟨rfl, rfl, rfl, rfl⟩
  · intro i st h
    obtain ⟨h0, h1, h2, h3⟩ := h
    rw [replacePixel_data0, replacePixel_data1, replacePixel_data2, replacePixel_data3]
    refine ⟨?_, ?_, ?_, ?_⟩
    · split_ifs
      · rfl
      · exact h0
    · split_ifs
      · rfl
      · exact h1
    · split_ifs
      · rfl
      · exact h2
    · split_ifs
      · rfl
      · exact h3
  · exact hrow.1
  · exact le_refl _

/-- Samples after the three stores of the blend path. -/
theorem blendPixel_data (s : AudioMothAnimationContext) (y x : Int) (st : PaintState)
    (p : Nat) (r c : Int) :
    (blendPixel s y x st).data p r c =
      if p = 2 ∧ r = y >>> s.vsub ∧ c = x >>> s.hsub then
        blend (blendAlpha (s.yuv_color 3)) (st.data 2 (y >>> s.vsub) (x >>> s.hsub))
          (s.yuv_color 2)
      else if p = 1 ∧ r = y >>> s.vsub ∧ c = x >>> s.hsub then
        blend (blendAlpha (s.yuv_color 3)) (st.data 1 (y >>> s.vsub) (x >>> s.hsub))
          (s.yuv_color 1)
      else if p = 0 ∧ r = y ∧ c = x then
        blend (blendAlpha (s.yuv_color 3)) (st.data 0 y x) (s.yuv_color 0)
      else st.data p r c := by
  unfold blendPixel
  simp only [store_data]
  by_cases h2 : p = 2 ∧ r = y >>> s.vsub ∧ c = x >>> s.hsub
  · rw [if_pos h2, if_pos h2]
    simp
  · rw [if_neg h2, if_neg h2]
    by_cases h1 : p = 1 ∧ r = y >>> s.vsub ∧ c = x >>> s.hsub
    · rw [if_pos h1, if_pos h1]
      simp
    · rw [if_neg h1, if_neg h1]

theorem blendPixel_data0 (s : AudioMothAnimationContext) (y x : Int) (st : PaintState)
    (r c : Int) :
    (blendPixel s y x st).data 0 r c =
      if r = y ∧ c = x then
        blend (blendAlpha (s.yuv_color 3)) (st.data 0 y x) (s.yuv_color 0)
      else st.data 0 r c := by
  simp [blendPixel_data]

theorem blendPixel_data1 (s : AudioMothAnimationContext) (y x : Int) (st : PaintState)
    (r c : Int) :
    (blendPixel s y x st).data 1 r c =
      if r = y >>> s.vsub ∧ c = x >>> s.hsub then
        blend (blendAlpha (s.yuv_color 3)) (st.data 1 (y >>> s.vsub) (x >>> s.hsub))
          (s.yuv_color 1)
      else st.data 1 r c := by
  simp [blendPixel_data]

theorem blendPixel_data2 (s : AudioMothAnimationContext) (y x : Int) (st : PaintState)
    (r c : Int) :
    (blendPixel s y x st).data 2 r c =
      if r = y >>> s.vsub ∧ c = x >>> s.hsub then
        blend (blendAlpha (s.yuv_color 3)) (st.data 2 (y >>> s.vsub) (x >>> s.hsub))
          (s.yuv_color 2)
      else st.data 2 r c := by
  simp [blendPixel_data]

theorem blendPixel_data_ge (s : AudioMothAnimationContext) (y x : Int) (st : PaintState)
    (p : Nat) (hp : 3 ≤ p) (r c : Int) :
    (blendPixel s y x st).data p r c = st.data p r c := by
  rw [blendPixel_data, if_neg (by omega), if_neg (by omega), if_neg (by omega)]

theorem doubleMul_zero (e : Int) (x : Fp) : doubleMul ⟨0, e⟩ x = ⟨0, e + x.e⟩ := by
  unfold doubleMul Fp.mul
  rw [Fp.round_of_lt]
  · simp
  · simp

theorem doubleMul_zero_left (x : Fp) (e : Int) : doubleMul x ⟨0, e⟩ = ⟨0, x.e + e⟩ := by
  unfold doubleMul Fp.mul
  rw [Fp.round_of_lt]
  · simp
  · simp

set_option maxRecDepth 1000000 in
/-- With `alpha = 255 / 255` the blend is the colour. -/
theorem blend_opaque (v c : Byte) : blend (blendAlpha 255) v c = c := by
  have h1 : doubleSub (Fp.ofInt 1) (blendAlpha 255) = ⟨0, -52⟩ := by decide
  unfold blend
  rw [h1, doubleMul_zero]
  show toByte (Fp.trunc (doubleAdd ⟨0, -52 + 0⟩
    (doubleMul (blendAlpha 255) (Fp.ofInt (ofByte c))))) = c
  revert c
  decide

set_option maxRecDepth 1000000 in
/-- With `alpha = 0 / 255` the blend is the earlier value. -/
theorem blend_transparent (v c : Byte) : blend (blendAlpha 0) v c = v := by
  have h1 : blendAlpha 0 = ⟨0, -62⟩ := by decide
  unfold blend
  rw [h1, doubleMul_zero]
  show toByte (Fp.trunc (doubleAdd
    (doubleMul (doubleSub (Fp.ofInt 1) ⟨0, -62⟩) (Fp.ofInt (ofByte v))) ⟨0, -62 + 0⟩)) = v
  revert v
  decide

/-- Two loops with the same condition, run in step: a relation between the two
states that every pair of iterations keeps holds when the loops end. -/
theorem forLoop_rel {σ τ : Type} (cond : Int → Bool) (b1 : Int → σ → σ)
    (b2 : Int → τ → τ) (R : σ → τ → Prop) (fuel : Nat) (lo : Int) (st1 : σ) (st2 : τ)
    (hbody : ∀ i s t, R s t → R (b1 i s) (b2 i t)) (h0 : R st1 st2) :
    R (forLoop cond b1 fuel lo st1) (forLoop cond b2 fuel lo st2) := by
  induction fuel generalizing lo st1 st2 with
  | zero => exact h0
  | succ n ih =>
    unfold forLoop
    split_ifs
    · exact ih (lo + 1) _ _ (hbody lo st1 st2 h0)
    · exact h0

/-- C12: with the alpha byte 255 and `invert_color` clear, the blend path gives
planes 0, 1 and 2 the samples that the replace path gives them: for every frame
and every configuration that takes the blend path, the samples of planes 0-2
after the pixel loops are those after the pixel loops of the same
configuration with `have_alpha` and `replace` set. -/
theorem blend_opaque_eq_replace (s : AudioMothAnimationContext)
    (hinv : s.invert_color = false) (hmode : (s.have_alpha && s.replace) = false)
    (halpha : s.yuv_color 3 = 255) (xPosition : Int) (frame : AVFrame)
    (p : Nat) (hp : p ≤ 2) (r c : Int) :
    (composite s xPosition frame).data p r c =
      (composite { s with have_alpha := true, replace := true } xPosition frame).data
        p r c := by
  have key : ∀ p, p ≤ 2 → ∀ r c, (composite s xPosition frame).data p r c =
      (composite { s with have_alpha := true, replace := true } xPosition frame).data
        p r c := by
    unfold composite
    rw [paint_blend s hinv hmode,
      paint_replace { s with have_alpha := true, replace := true } hinv rfl rfl]
    by_cases hcol : colScanned s frame.width xPosition
    · have hcol1 : colScanned { s with have_alpha := true, replace := true } frame.width
          xPosition := hcol
      rw [if_pos hcol, if_pos hcol1]
      unfold rowLoop
      apply forLoop_rel _ _ _
        (fun (st1 st2 : PaintState) => ∀ p, p ≤ 2 → ∀ r c, st1.data p r c = st2.data p r c)
      · intro y st1 st2 hR p hp r c
        have e0 : p = 0 ∨ p = 1 ∨ p = 2 := by omega
        rcases e0 with e | e | e
        · subst e
          rw [blendPixel_data0, replacePixel_data0, halpha, blend_opaque, hR 0 hp r c]
        · subst e
          rw [blendPixel_data1, replacePixel_data1, halpha, blend_opaque, hR 1 hp r c]
        · subst e
          rw [blendPixel_data2, replacePixel_data2, halpha, blend_opaque, hR 2 hp r c]
      · intro p _ r c
        rfl
    · have hcol1 : ¬ colScanned { s with have_alpha := true, replace := true } frame.width
          xPosition := hcol
      rw [if_neg hcol, if_neg hcol1]
      intro p _ r c
      rfl
  exact key p hp r c

/-- C13: in blend mode (`invert_color` clear, not both `have_alpha` and
`replace`) with the alpha byte 0, for every frame, rectangle, marker column and
colour, every sample of every plane is after the pixel loops what it was
before. -/
theorem blend_transparent_identity (s : AudioMothAnimationContext)
    (hinv : s.invert_color = false) (hmode : (s.have_alpha && s.replace) = false)
    (halpha : s.yuv_color 3 = 0) (xPosition : Int) (frame : AVFrame)
    (p : Nat) (r c : Int) :
    (composite s xPosition frame).data p r c = frame.data p r c := by
  have key : ∀ p r c, (composite s xPosition frame).data p r c = frame.data p r c := by
    unfold composite
    apply paint_invariant s frame.width frame.height xPosition
      (fun st => ∀ p r c, st.data p r c = frame.data p r c)
    · intro h
      rw [hinv] at h
      exact absurd h (by decide)
    · intro _ ha hr
      rw [ha, hr] at hmode
      exact absurd hmode (by decide)
    · intro _ _ y st _ _ hI p r c
      rw [blendPixel_data, halpha, blend_transparent, blend_transparent, blend_transparent]
      split_ifs with h2 h1 h0
      · rw [← hI p r c, h2.1, h2.2.1, h2.2.2]
      · rw [← hI p r c, h1.1, h1.2.1, h1.2.2]
      · rw [← hI p r c, h0.1, h0.2.1, h0.2.2]
      · exact hI p r c
    · intro p r c
      rfl
  exact key p r c

/-- C14: when the rectangle lies entirely outside the frame (`x >= width`,
`x + w <= 0`, `y >= height` or `y + h <= 0`), the pixel loops make no store and
leave every sample of every plane as it was, in each of the three paint
modes. -/
theorem composite_outside (s : AudioMothAnimationContext) (xPosition : Int)
    (frame : AVFrame)
    (hout : frame.width ≤ s.x ∨ s.x + s.w ≤ 0 ∨ frame.height ≤ s.y ∨ s.y + s.h ≤ 0) :
    (composite s xPosition frame).stores = [] ∧
    ∀ p r c, (composite s xPosition frame).data p r c = frame.data p r c := by
  have hno : ∀ y, rowScanned s frame.height y → colScanned s frame.width xPosition →
      False := by
    intro y hrow hcol
    unfold rowScanned FFMAX at hrow
    unfold colScanned FFMAX at hcol
    split_ifs at hrow hcol <;> omega
  unfold composite
  apply paint_invariant s frame.width frame.height xPosition
    (fun st => st.stores = [] ∧ ∀ p r c, st.data p r c = frame.data p r c)
  · intro _ y st hrow hcol _
    exact (hno y hrow hcol).elim
  · intro _ _ _ y st hrow hcol _
    exact (hno y hrow hcol).elim
  · intro _ _ y st hrow hcol _
    exact (hno y hrow hcol).elim
  · exact ⟨rfl, fun p r c => rfl⟩

/-- C20: on a format without alpha (`have_alpha` clear), for every frame and
every configuration the pixel loops with `replace` set end in the state in
which they end with `replace` clear: the same samples and the same stores. -/
theorem replace_ignored_without_alpha (s : AudioMothAnimationContext)
    (ha : s.have_alpha = false) (xPosition : Int) (frame : AVFrame) :
    composite { s with replace := true } xPosition frame =
      composite { s with replace := false } xPosition frame := by
  have m1 : (({ s with replace := true } : AudioMothAnimationContext).have_alpha &&
      ({ s with replace := true } : AudioMothAnimationContext).replace) = false := by
    show (s.have_alpha && true) = false
    rw [ha]
    rfl
  have m2 : (({ s with replace := false } : AudioMothAnimationContext).have_alpha &&
      ({ s with replace := false } : AudioMothAnimationContext).replace) = false := by
    show (s.have_alpha && false) = false
    rw [ha]
    rfl
  unfold composite
  by_cases hi : s.invert_color = true
  · rw [paint_invert { s with replace := true } hi,
      paint_invert { s with replace := false } hi]
    rfl
  · have hf : s.invert_color = false := by simpa using hi
    rw [paint_blend { s with replace := true } hf m1,
      paint_blend { s with replace := false } hf m2]
    rfl

/-! ## The frame counter -/

theorem filter_frame_eq (s : AudioMothAnimationContext) (g : Globals) (frame : AVFrame)
    (x : Int) (hx : resolveOffset s g = some x) :
    filter_frame s g frame =
      some ({ g with frameCounter := g.frameCounter + 1 }, compositeFrame s x frame) := by
  unfold filter_frame
  rw [hx]
  rfl

/-- A call of `filter_frame` that returns has added one to `frameCounter` and
left the other file-scope variables as they were. -/
theorem filter_frame_counter (s : AudioMothAnimationContext) (g : Globals)
    (frame : AVFrame) (r : Globals × AVFrame) (h : filter_frame s g frame = some r) :
    r.1.frameCounter = g.frameCounter + 1 ∧ r.1.numberOfBoxes = g.numberOfBoxes ∧
    r.1.skipCount = g.skipCount ∧ r.1.skippingPercentages = g.skippingPercentages := by
  unfold filter_frame at h
  cases hx : resolveOffset s g with
  | none =>
    rw [hx] at h
    exact absurd h (by simp)
  | some x =>
    rw [hx] at h
    simp only [Option.map_some', Option.some.injEq] at h
    subst h
    exact ⟨rfl, rfl, rfl, rfl⟩

/-- The marker column depends on the file-scope variables through the skip
list only. -/
theorem xPositionAt_congr (s : AudioMothAnimationContext) (g1 g2 : Globals) (L : Int)
    (h1 : g1.skipCount = g2.skipCount)
    (h2 : g1.skippingPercentages = g2.skippingPercentages) :
    xPositionAt s g1 L = xPositionAt s g2 L := by
  unfold xPositionAt rawXPosition currentPercentage
  rw [h1, h2]

/-- In uniform mode the marker column is defined as soon as `framecount` is
not 1. -/
theorem xPositionAt_uniform_isSome (s : AudioMothAnimationContext) (g : Globals) (L : Int)
    (hskip : g.skipCount = 0) (hfc : s.framecount ≠ 1) :
    (xPositionAt s g L).isSome = true := by
  unfold xPositionAt rawXPosition ROUNDED_DIV cdiv
  rw [if_pos hskip, if_neg (by omega)]
  rfl

theorem resolveOffset_of_counter (s : AudioMothAnimationContext) (g : Globals)
    (hb : 1 ≤ g.numberOfBoxes) (hc : 0 ≤ g.frameCounter) :
    resolveOffset s g = xPositionAt s g (g.frameCounter / g.numberOfBoxes) := by
  unfold resolveOffset
  rw [localIndex_pos g hb, Option.some_bind, Int.tdiv_eq_ediv hc (by omega)]

/-- A run of `filter_frame` over a stream, when the marker column of every
frame is defined: the run returns, `frameCounter` has grown by the number of
frames, and frame number `k` of the stream is painted at the column of the
local index `(frameCounter + k) / numberOfBoxes`. -/
theorem filterFrames_run (calls : List (AudioMothAnimationContext × AVFrame)) (g : Globals)
    (hb : 1 ≤ g.numberOfBoxes) (hc : 0 ≤ g.frameCounter)
    (hres : ∀ (k : Nat) call, calls[k]? = some call →
      (xPositionAt call.1 g ((g.frameCounter + k) / g.numberOfBoxes)).isSome = true) :
    ∃ g1 outs, filterFrames g calls = some (g1, outs) ∧
      g1.frameCounter = g.frameCounter + calls.length ∧
      g1.numberOfBoxes = g.numberOfBoxes ∧ g1.skipCount = g.skipCount ∧
      g1.skippingPercentages = g.skippingPercentages ∧
      ∀ (k : Nat) call, calls[k]? = some call →
        ∃ x, xPositionAt call.1 g ((g.frameCounter + k) / g.numberOfBoxes) = some x ∧
          outs[k]? = some (compositeFrame call.1 x call.2) := by
  induction calls generalizing g with
  | nil =>
    refine ⟨g, [], rfl, by simp, rfl, rfl, rfl, ?_⟩
    intro k call h
    simp at h
  | cons call rest ih =>
    have h0 := hres 0 call (List.getElem?_cons_zero)
    obtain ⟨x0, hx0⟩ := Option.isSome_iff_exists.mp h0
    have hx0' : xPositionAt call.1 g (g.frameCounter / g.numberOfBoxes) = some x0 := by
      simpa using hx0
    have hstep := filter_frame_eq call.1 g call.2 x0
      (by rw [resolveOffset_of_counter call.1 g hb hc]; exact hx0')
    obtain ⟨g1, outs, hrun, hfc, hnb, hsc, hsp, hk⟩ :=
      ih { g with frameCounter := g.frameCounter + 1 } hb
        (show 0 ≤ g.frameCounter + 1 by omega)
        (by
          intro k c hc1
          have := hres (k + 1) c (by simpa using hc1)
          rw [xPositionAt_congr c.1 { g with frameCounter := g.frameCounter + 1 } g _ rfl rfl]
          have e : g.frameCounter + 1 + (k : Int) = g.frameCounter + ((k + 1 : Nat) : Int) := by
            push_cast
            ring
          show (xPositionAt c.1 g ((g.frameCounter + 1 + (k : Int)) / g.numberOfBoxes)).isSome
            = true
          rw [e]
          exact this)
    refine ⟨g1, compositeFrame call.1 x0 call.2 :: outs, ?_, ?_, hnb, hsc, hsp, ?_⟩
    · show (filter_frame call.1 g call.2).bind _ = _
      rw [hstep, Option.some_bind, hrun]
      rfl
    · rw [hfc]
      show g.frameCounter + 1 + (rest.length : Int) = g.frameCounter + ((rest.length + 1 : Nat) : Int)
      push_cast
      ring
    · intro k c hc1
      cases k with
      | zero =>
        simp only [List.getElem?_cons_zero, Option.some.injEq] at hc1
        subst hc1
        exact ⟨x0, by simpa using hx0', List.getElem?_cons_zero⟩
      | succ j =>
        simp only [List.getElem?_cons_succ] at hc1
        obtain ⟨x, hx, hout⟩ := hk j c hc1
        refine ⟨x, ?_, by simpa using hout⟩
        rw [xPositionAt_congr c.1 { g with frameCounter := g.frameCounter + 1 } g _ rfl rfl]
          at hx
        have e : g.frameCounter + ((j + 1 : Nat) : Int) = g.frameCounter + 1 + (j : Int) := by
          push_cast
          ring
        rw [e]
        exact hx

/-- A successful `init` adds one to `numberOfBoxes` and leaves `frameCounter`
as it was. -/
theorem init_numberOfBoxes (atof : List Char → Fp) (s : AudioMothAnimationContext)
    (g : Globals) (color_str skip_str : List Char) (parsed : Option (Fin 4 → Byte))
    (r : AudioMothAnimationContext × Globals)
    (h : init atof s g color_str skip_str parsed = Except.ok r) :
    r.2.numberOfBoxes = g.numberOfBoxes + 1 ∧ r.2.frameCounter = g.frameCounter := by
  unfold init at h
  simp only at h
  split_ifs at h <;> (cases h; exact ⟨rfl, rfl⟩)

/-- C15: every call of `filter_frame` that returns has added exactly one to
`frameCounter`; so from `frameCounter = 0` with `numberOfBoxes = n >= 1`, a run
over a stream returns (in uniform mode as soon as no `framecount` is 1, and in
general when the marker column of every frame is defined), ends with
`frameCounter` equal to the number of frames, and has painted frame number `k`
at the column of the local index `k / n`; with `n = 2` the local indices of
frames 0..5 are 0, 0, 1, 1, 2, 2. -/
theorem frameCounter_schedule (n : Int) (hn : 1 ≤ n) (g : Globals)
    (hg : g.numberOfBoxes = n) (h0 : g.frameCounter = 0)
    (calls : List (AudioMothAnimationContext × AVFrame))
    (hdef : (g.skipCount = 0 ∧ ∀ call ∈ calls, call.1.framecount ≠ 1) ∨
      ∀ (k : Nat) call, calls[k]? = some call →
        (xPositionAt call.1 g ((k : Int) / n)).isSome = true) :
    (∀ s g0 f r, filter_frame s g0 f = some r → r.1.frameCounter = g0.frameCounter + 1) ∧
    (∃ g1 outs, filterFrames g calls = some (g1, outs) ∧
      g1.frameCounter = calls.length ∧ g1.numberOfBoxes = n ∧
      ∀ (k : Nat) call, calls[k]? = some call →
        ∃ x, xPositionAt call.1 g ((k : Int) / n) = some x ∧
          outs[k]? = some (compositeFrame call.1 x call.2)) ∧
    ([0, 1, 2, 3, 4, 5] : List Int).map (fun k => localIndex { twoInstances with
      frameCounter := k }) = [some 0, some 0, some 1, some 1, some 2, some 2] := by
  refine ⟨fun s g0 f r h => (filter_frame_counter s g0 f r h).1, ?_, by decide⟩
  have hres : ∀ (k : Nat) call, calls[k]? = some call →
      (xPositionAt call.1 g ((g.frameCounter + k) / g.numberOfBoxes)).isSome = true := by
    intro k call hk
    rw [h0, hg, zero_add]
    rcases hdef with ⟨hskip, hfc⟩ | hgen
    · exact xPositionAt_uniform_isSome call.1 g _ hskip
        (hfc call (List.getElem?_mem hk))
    · exact hgen k call hk
  obtain ⟨g1, outs, hrun, hfc, hnb, -, -, hk⟩ :=
    filterFrames_run calls g (by omega) (by omega) hres
  refine ⟨g1, outs, hrun, by rw [hfc, h0, zero_add], by rw [hnb, hg], ?_⟩
  intro k call hcall
  obtain ⟨x, hx, hout⟩ := hk k call hcall
  rw [h0, hg, zero_add] at hx
  exact ⟨x, hx, hout⟩

theorem frameCounter_schedule_witness :
    ∃ g1 outs, filterFrames twoInstances shortStream = some (g1, outs) ∧
      g1.frameCounter = shortStream.length ∧ g1.numberOfBoxes = 2 ∧
      ∀ (k : Nat) call, shortStream[k]? = some call →
        ∃ x, xPositionAt call.1 twoInstances ((k : Int) / 2) = some x ∧
          outs[k]? = some (compositeFrame call.1 x call.2) :=
  (frameCounter_schedule 2 (by decide) twoInstances rfl rfl shortStream
    (Or.inl ⟨rfl, by decide⟩)).2.1

/-! ## Setup -/

theorem countFields_shift (l : List Char) (a : Int) :
    l.foldl (fun n c => if c = '|' then n + 1 else n) (a + 1) =
      l.foldl (fun n c => if c = '|' then n + 1 else n) a + 1 := by
  induction l generalizing a with
  | nil => rfl
  | cons d ds ih =>
    simp only [List.foldl_cons]
    split_ifs
    · exact ih (a + 1)
    · exact ih a

/-- The loop of lines 125-130 stores at most `skipCount` values: no store of
`splitAndConvert` is past the end of the array. -/
theorem strtokAll_length (s cur : List Char) :
    ((strtokAll s cur).length : Int) ≤ countFields s := by
  unfold countFields
  induction s generalizing cur with
  | nil =>
    unfold strtokAll
    split_ifs <;> simp
  | cons c cs ih =>
    unfold strtokAll
    simp only [List.foldl_cons]
    by_cases hc : c = '|'
    · rw [if_pos hc, if_pos hc, countFields_shift]
      have h1 := ih []
      split_ifs with h2
      · omega
      · rw [List.length_cons]
        push_cast
        omega
    · rw [if_neg hc, if_neg hc]
      exact ih (c :: cur)

/-- The count of line 108-113 is one more than the number of `'|'`. -/
theorem countFields_eq (s : List Char) : countFields s = 1 + (s.count '|' : Int) := by
  unfold countFields
  induction s with
  | nil => rfl
  | cons c cs ih =>
    simp only [List.foldl_cons]
    by_cases hc : c = '|'
    · rw [if_pos hc, countFields_shift, ih, hc, List.count_cons_self]
      push_cast
      ring
    · rw [if_neg hc, ih, List.count_cons_of_ne (fun h => hc h.symm)]

theorem strtokAll_eq_filter_go (s cur : List Char) :
    strtokAll s cur =
      (List.splitOnP.go (fun c => c == '|') s cur).filter (fun f => decide (f ≠ [])) := by
  induction s generalizing cur with
  | nil =>
    unfold strtokAll List.splitOnP.go
    by_cases h : cur = []
    · subst h
      rfl
    · rw [if_neg h, List.filter_cons_of_pos]
      · rfl
      · simpa using h
  | cons c cs ih =>
    unfold strtokAll List.splitOnP.go
    by_cases hc : c = '|'
    · have hc1 : (c == '|') = true := by simpa using hc
      rw [if_pos hc, if_pos hc1]
      by_cases h : cur = []
      · subst h
        rw [if_pos rfl, ih []]
        rfl
      · rw [if_neg h, ih [], List.filter_cons_of_pos]
        simpa using h
    · have hc1 : ¬ (c == '|') = true := by simpa using hc
      rw [if_neg hc, if_neg hc1]
      exact ih (c :: cur)

/-- The tokens of `strtok` are the non-empty fields of the string, in order. -/
theorem strtokAll_eq_filter (s : List Char) :
    strtokAll s [] = (s.splitOn '|').filter (fun f => decide (f ≠ [])) :=
  strtokAll_eq_filter_go s []

/-- C16, the code on `"1||2"` and on the empty string: `skipCount` is 3 but
`strtok` returns the two tokens `"1"` and `"2"` only, so two values are stored,
the second being the value of the third field, and the third element of the
array is never written; on the empty string `skipCount` is 1 and nothing is
stored; in general the values stored are those of the non-empty fields.  With the list `"1||2"` loaded and `framecount = 3`, the frame of
local index 2 reads the element that holds no value. -/
theorem splitAndConvert_empty_field :
    countFields "1||2".toList = 3 ∧
    "1||2".toList.splitOn '|' = [['1'], [], ['2']] ∧
    strtokAll "1||2".toList [] = [['1'], ['2']] ∧
    (∀ atof, splitAndConvert atof "1||2".toList = (3, [atof ['1'], atof ['2']])) ∧
    (∀ atof, splitAndConvert atof [] = (1, [])) ∧
    (∀ atof s, splitAndConvert atof s = (1 + (s.count '|' : Int),
      ((s.splitOn '|').filter (fun f => decide (f ≠ []))).map atof)) ∧
    (∀ atof, ∃ s g, init atof zeroContext zeroGlobals "black".toList "1||2".toList
        (some (fun _ => 16)) = Except.ok (s, g) ∧
      g.skipCount = 3 ∧ g.skippingPercentages.length = 2 ∧
      resolveOffset (skipScenario 200) { g with frameCounter := 2 } = none) := by
  refine ⟨by decide, by decide, by decide, fun atof => rfl, fun atof => rfl, ?_,
    fun atof => ?_⟩
  · intro atof s
    unfold splitAndConvert
    rw [countFields_eq, strtokAll_eq_filter]
  · exact ⟨_, _, rfl, rfl, rfl, rfl⟩

/-- The size check of line 252 never fails on a link of non-negative size:
line 248 has already replaced every non-positive width or height. -/
theorem config_input_size (s : AudioMothAnimationContext) (inlink_w inlink_h : Int)
    (cw ch : Nat) (alpha : Bool) (x y w h t : Int)
    (hw : 0 ≤ inlink_w) (hh : 0 ≤ inlink_h) :
    ∃ s1, config_input s inlink_w inlink_h cw ch alpha
        ⟨Except.ok x, Except.ok y, Except.ok w, Except.ok h, Except.ok t⟩ = Except.ok s1 ∧
      s1.w = (if w > 0 then w else inlink_w) ∧ s1.h = (if h > 0 then h else inlink_h) ∧
      s1.framecount = t := by
  unfold config_input
  simp only
  rw [if_neg]
  · exact ⟨_, rfl, rfl, rfl, rfl⟩
  · split_ifs <;> omega

/-- C17, the code with `framecount=1` and the default `skip=-`: `init` and
`config_input` both succeed, the context has `framecount = 1`, and the first
call of `filter_frame` divides by `framecount - 1 = 0` on line 282, so it has
no result. -/
theorem framecount_one_accepted :
    ∃ s1 g1 s2, init (fun _ => Fp.ofInt 0) zeroContext zeroGlobals "black".toList
        "-".toList (some (fun _ => 16)) = Except.ok (s1, g1) ∧
      config_input s1 4 2 0 0 false (exprValues 0 0 1) = Except.ok s2 ∧
      g1.skipCount = 0 ∧ s2.framecount = 1 ∧
      ROUNDED_DIV (0 * (s2.w - 1)) (s2.framecount - 1) = none ∧
      resolveOffset s2 g1 = none ∧ (filter_frame s2 g1 sampleFrame).isNone = true :=
  ⟨_, _, _, rfl, rfl, rfl, rfl, by decide, by decide, by decide⟩

/-- C19, the code when the width expression evaluates to -5 and the height
expression to -1 on a 640x480 link: `config_input` succeeds, with the width
and the height of the link in place of the negative values. -/
theorem negative_size_accepted :
    ∃ s, config_input zeroContext 640 480 1 1 false
        ⟨Except.ok 0, Except.ok 0, Except.ok (-5), Except.ok (-1), Except.ok 3⟩ =
          Except.ok s ∧
      s.w = 640 ∧ s.h = 480 :=
  ⟨_, rfl, rfl, rfl⟩

/-! ## Blend mode -/

/-- Samples of plane 0 after the loop over `y` of the blend path. -/
theorem forLoop_blend_data0 (s : AudioMothAnimationContext) (a b x : Int) (fuel : Nat)
    (lo : Int) (st : PaintState) (hf : (a - lo).toNat ≤ fuel) (r c : Int) :
    (forLoop (fun y => decide (y < a) && decide (y < b))
        (fun y st => blendPixel s y x st) fuel lo st).data 0 r c =
      if c = x ∧ lo ≤ r ∧ r < a ∧ r < b then
        blend (blendAlpha (s.yuv_color 3)) (st.data 0 r c) (s.yuv_color 0)
      else st.data 0 r c := by
  induction fuel generalizing lo st with
  | zero =>
    unfold forLoop
    rw [if_neg (by omega)]
  | succ n ih =>
    unfold forLoop
    by_cases hc : lo < a ∧ lo < b
    · have hc1 : (decide (lo < a) && decide (lo < b)) = true := by
        simp [hc.1, hc.2]
      rw [if_pos hc1, ih (lo + 1) _ (by omega), blendPixel_data0]
      by_cases ht : r = lo ∧ c = x
      · obtain ⟨hr, hcx⟩ := ht
        subst hr hcx
        rw [if_neg (by omega), if_pos ⟨rfl, rfl⟩, if_pos ⟨rfl, le_refl _, hc.1, hc.2⟩]
      · rw [if_neg ht]
        by_cases h1 : c = x ∧ lo + 1 ≤ r ∧ r < a ∧ r < b
        · rw [if_pos h1, if_pos ⟨h1.1, by omega, h1.2.2.1, h1.2.2.2⟩]
        · rw [if_neg h1, if_neg]
          intro h2
          apply h1
          refine ⟨h2.1, ?_, h2.2.2.1, h2.2.2.2⟩
          have : r ≠ lo := fun e => ht ⟨e, h2.1⟩
          omega
    · have hc1 : ¬ (decide (lo < a) && decide (lo < b)) = true := by
        simpa using hc
      rw [if_neg hc1, if_neg (by omega)]

/-- Samples of planes 1 and 2 at the marker column after the loop over `y` of
the blend path: one blend per visited row that has `r` as its chroma row. -/
theorem forLoop_blend_chroma (s : AudioMothAnimationContext) (a b x : Int) (fuel : Nat)
    (lo : Int) (st : PaintState) (r : Int) :
    (forLoop (fun y => decide (y < a) && decide (y < b))
        (fun y st => blendPixel s y x st) fuel lo st).data 1 r (x >>> s.hsub) =
      (fun v => blend (blendAlpha (s.yuv_color 3)) v (s.yuv_color 1))^[
        countRows a b s.vsub r fuel lo] (st.data 1 r (x >>> s.hsub)) ∧
    (forLoop (fun y => decide (y < a) && decide (y < b))
        (fun y st => blendPixel s y x st) fuel lo st).data 2 r (x >>> s.hsub) =
      (fun v => blend (blendAlpha (s.yuv_color 3)) v (s.yuv_color 2))^[
        countRows a b s.vsub r fuel lo] (st.data 2 r (x >>> s.hsub)) := by
  induction fuel generalizing lo st with
  | zero => exact ⟨rfl, rfl⟩
  | succ n ih =>
    unfold forLoop countRows
    by_cases hc : lo < a ∧ lo < b
    · have hc1 : (decide (lo < a) && decide (lo < b)) = true := by
        simp [hc.1, hc.2]
      rw [if_pos hc1, if_pos hc, (ih (lo + 1) _).1, (ih (lo + 1) _).2,
        blendPixel_data1, blendPixel_data2]
      by_cases hr : lo >>> s.vsub = r
      · subst hr
        have e1 : lo >>> s.vsub = lo >>> s.vsub ∧ x >>> s.hsub = x >>> s.hsub := ⟨rfl, rfl⟩
        simp only [if_pos e1, if_true, Nat.add_comm 1, Function.iterate_succ_apply]
        exact ⟨rfl, rfl⟩
      · have e1 : ¬ r = lo >>> s.vsub := fun h => hr h.symm
        simp only [e1, hr, false_and, if_false, Nat.zero_add, and_self]
    · have hc1 : ¬ (decide (lo < a) && decide (lo < b)) = true := by
        simpa using hc
      rw [if_neg hc1, if_neg hc]
      exact ⟨rfl, rfl⟩

theorem countRows_zero (a b : Int) (vsub : Nat) (r : Int) (fuel : Nat) (lo : Int)
    (h : ∀ y, lo ≤ y → y < a → y < b → y >>> vsub ≠ r) :
    countRows a b vsub r fuel lo = 0 := by
  induction fuel generalizing lo with
  | zero => rfl
  | succ n ih =>
    unfold countRows
    split_ifs with hc hr
    · exact absurd hr (h lo (le_refl lo) hc.1 hc.2)
    · rw [ih (lo + 1) (fun y hy => h y (by omega))]
    · rfl

/-- A row that shares its chroma row with no other visited row is counted
once. -/
theorem countRows_one (a b : Int) (vsub : Nat) (y0 : Int) (fuel : Nat) (lo : Int)
    (hlo : lo ≤ y0) (hy : y0 < a ∧ y0 < b) (hf : (a - lo).toNat ≤ fuel)
    (huniq : ∀ y, lo ≤ y → y < a → y < b → y >>> vsub = y0 >>> vsub → y = y0) :
    countRows a b vsub (y0 >>> vsub) fuel lo = 1 := by
  induction fuel generalizing lo with
  | zero => omega
  | succ n ih =>
    unfold countRows
    rw [if_pos (by omega)]
    by_cases e : lo = y0
    · subst e
      rw [if_pos rfl, countRows_zero]
      intro y h1 h2 h3 h4
      have := huniq y (by omega) h2 h3 h4
      omega
    · rw [if_neg (fun h => e (huniq lo (le_refl lo) (by omega) (by omega) h)),
        ih (lo + 1) (by omega) (by omega) (fun y hy => huniq y (by omega))]

theorem shiftRight_zero (y : Int) : y >>> (0 : Nat) = y := by
  rw [Int.shiftRight_eq_div_pow]
  simp

set_option maxRecDepth 100000 in
/-- C18 as stated fails: with both chroma dimensions halved and rows 0 and 1
visited, the sample of plane 1 at `(0 >> 1, 2 >> 1)` is blended once per row;
it held 101 and holds 121 after the pixel loops, while one blend of 101 with
the colour 128 and the alpha byte 128 gives 114 (in `double` arithmetic and
over the rationals alike).  Also, the `double` value can fall below the exact
one: blending 3 with the colour 3 and the alpha byte 5 stores 2. -/
theorem blend_chroma_twice :
    blendScenario.invert_color = false ∧
    (blendScenario.have_alpha && blendScenario.replace) = false ∧
    rowScanned blendScenario sampleFrame.height 0 ∧
    colScanned blendScenario sampleFrame.width 2 ∧
    sampleFrame.data 1 0 1 = 101 ∧
    (0 : Int) >>> blendScenario.vsub = 0 ∧ (2 : Int) >>> blendScenario.hsub = 1 ∧
    (composite blendScenario 2 sampleFrame).data 1 0 1 = 121 ∧
    blend (blendAlpha (blendScenario.yuv_color 3)) (sampleFrame.data 1 0 1)
      (blendScenario.yuv_color 1) = 114 ∧
    blendExact (blendScenario.yuv_color 3) (sampleFrame.data 1 0 1)
      (blendScenario.yuv_color 1) = 114 ∧
    (composite faintScenario 0 flatFrame).data 0 0 0 = 2 ∧
    blendExact (faintScenario.yuv_color 3) (flatFrame.data 0 0 0)
      (faintScenario.yuv_color 0) = 3 := by
  refine ⟨by decide, by decide, by decide, by decide, by decide, by decide, by decide,
    by decide, by decide, by decide, by decide, by decide⟩

/-- C18, amended: in blend mode (`invert_color` clear, not both `have_alpha`
and `replace`), when the marker column is visited, after the pixel loops the
sample of plane 0 at the marker column of every visited row holds the `double`
value of `(1 - alpha) * old + alpha * Y`, truncated, for the value `old` it
held before; the samples of planes 1 and 2 at column `xPosition >> hsub` hold
that blend with U and V applied once per visited row `y` that has `y >> vsub`
as its row, so exactly once when no other visited row shares the row (always
so when `vsub = 0`); plane 3 is not stored and keeps its samples. -/
theorem composite_blend (s : AudioMothAnimationContext) (hinv : s.invert_color = false)
    (hmode : (s.have_alpha && s.replace) = false) (xPosition : Int) (frame : AVFrame)
    (hcol : colScanned s frame.width xPosition) :
    (∀ y, rowScanned s frame.height y →
      (composite s xPosition frame).data 0 y xPosition =
        blend (blendAlpha (s.yuv_color 3)) (frame.data 0 y xPosition) (s.yuv_color 0)) ∧
    (∀ r, (composite s xPosition frame).data 1 r (xPosition >>> s.hsub) =
      (fun v => blend (blendAlpha (s.yuv_color 3)) v (s.yuv_color 1))^[
        coveringRows s frame.height r] (frame.data 1 r (xPosition >>> s.hsub))) ∧
    (∀ r, (composite s xPosition frame).data 2 r (xPosition >>> s.hsub) =
      (fun v => blend (blendAlpha (s.yuv_color 3)) v (s.yuv_color 2))^[
        coveringRows s frame.height r] (frame.data 2 r (xPosition >>> s.hsub))) ∧
    (∀ y, rowScanned s frame.height y →
      (s.vsub = 0 ∨
        ∀ y1, rowScanned s frame.height y1 → y1 >>> s.vsub = y >>> s.vsub → y1 = y) →
      (composite s xPosition frame).data 1 (y >>> s.vsub) (xPosition >>> s.hsub) =
        blend (blendAlpha (s.yuv_color 3))
          (frame.data 1 (y >>> s.vsub) (xPosition >>> s.hsub)) (s.yuv_color 1) ∧
      (composite s xPosition frame).data 2 (y >>> s.vsub) (xPosition >>> s.hsub) =
        blend (blendAlpha (s.yuv_color 3))
          (frame.data 2 (y >>> s.vsub) (xPosition >>> s.hsub)) (s.yuv_color 2)) ∧
    (∀ r c, (composite s xPosition frame).data 3 r c = frame.data 3 r c) ∧
    (∀ pos ∈ (composite s xPosition frame).stores, pos.1 ≠ 3) := by
  have hpaint : composite s xPosition frame =
      forLoop (fun y => decide (y < frame.height) && decide (y < s.y + s.h))
        (fun y st => blendPixel s y xPosition st)
        (frame.height - FFMAX s.y 0).toNat (FFMAX s.y 0) ⟨frame.data, []⟩ := by
    unfold composite
    rw [paint_blend s hinv hmode, if_pos hcol]
    rfl
  have hchroma := forLoop_blend_chroma s frame.height (s.y + s.h) xPosition
    (frame.height - FFMAX s.y 0).toNat (FFMAX s.y 0) ⟨frame.data, []⟩
  refine ⟨?_, ?_, ?_, ?_, ?_⟩
  · intro y hrow
    rw [hpaint, forLoop_blend_data0 s _ _ _ _ _ _ (le_refl _),
      if_pos ⟨rfl, hrow.1, hrow.2.1, hrow.2.2⟩]
  · intro r
    rw [hpaint]
    exact (hchroma r).1
  · intro r
    rw [hpaint]
    exact (hchroma r).2
  · intro y hrow huniq
    have hone : countRows frame.height (s.y + s.h) s.vsub (y >>> s.vsub)
        (frame.height - FFMAX s.y 0).toNat (FFMAX s.y 0) = 1 := by
      apply countRows_one _ _ _ _ _ _ hrow.1 ⟨hrow.2.1, hrow.2.2⟩ (le_refl _)
      intro y1 h1 h2 h3 h4
      rcases huniq with hv | hu
      · rw [hv, shiftRight_zero, shiftRight_zero] at h4
        exact h4
      · exact hu y1 ⟨h1, h2, h3⟩ h4
    rw [hpaint, (hchroma (y >>> s.vsub)).1, (hchroma (y >>> s.vsub)).2, hone]
    exact ⟨rfl, rfl⟩
  · have key : (∀ r c, (composite s xPosition frame).data 3 r c = frame.data 3 r c) ∧
        ∀ pos ∈ (composite s xPosition frame).stores, pos.1 ≠ 3 := by
      unfold composite
      apply paint_invariant s frame.width frame.height xPosition
        (fun st => (∀ r c, st.data 3 r c = frame.data 3 r c) ∧
          ∀ pos ∈ st.stores, pos.1 ≠ 3)
      · intro h
        rw [hinv] at h
        exact absurd h (by decide)
      · intro _ ha hr
        rw [ha, hr] at hmode
        exact absurd hmode (by decide)
      · intro _ _ y st _ _ hI
        refine ⟨fun r c => ?_, fun pos hpos => ?_⟩
        · rw [blendPixel_data_ge s y xPosition st 3 (le_refl 3), hI.1 r c]
        · unfold blendPixel store at hpos
          rcases List.mem_cons.mp hpos with e | hpos
          · subst e
            simp
          rcases List.mem_cons.mp hpos with e | hpos
          · subst e
            simp
          rcases List.mem_cons.mp hpos with e | hpos
          · subst e
            simp
          exact hI.2 pos hpos
      · exact ⟨fun r c => rfl, fun pos hpos => absurd hpos (List.not_mem_nil pos)⟩
    exact key

theorem composite_blend_witness :
    (composite blendScenario 2 sampleFrame).data 1 0 (2 >>> blendScenario.hsub) =
      (fun v => blend (blendAlpha (blendScenario.yuv_color 3)) v
        (blendScenario.yuv_color 1))^[coveringRows blendScenario sampleFrame.height 0]
        (sampleFrame.data 1 0 (2 >>> blendScenario.hsub)) :=
  (composite_blend blendScenario rfl rfl 2 sampleFrame (by decide)).2.1 0

/-! ## The later claims at concrete inputs -/

theorem composite_replace_witness :
    (composite replaceScenario 2 sampleFrame).data 0 0 2 = replaceScenario.yuv_color 0 ∧
    (composite replaceScenario 2 sampleFrame).data 1 (0 >>> replaceScenario.vsub)
      (2 >>> replaceScenario.hsub) = replaceScenario.yuv_color 1 ∧
    (composite replaceScenario 2 sampleFrame).data 2 (0 >>> replaceScenario.vsub)
      (2 >>> replaceScenario.hsub) = replaceScenario.yuv_color 2 ∧
    (composite replaceScenario 2 sampleFrame).data 3 0 2 = replaceScenario.yuv_color 3 :=
  composite_replace replaceScenario rfl rfl rfl 2 sampleFrame 0 (by decide)
    ⟨by decide, by decide⟩ ⟨by decide, by decide⟩

theorem blend_opaque_eq_replace_witness :
    (composite opaqueScenario 2 sampleFrame).data 1 0 1 =
      (composite { opaqueScenario with have_alpha := true, replace := true } 2
        sampleFrame).data 1 0 1 :=
  blend_opaque_eq_replace opaqueScenario rfl rfl rfl 2 sampleFrame 1 (by decide) 0 1

theorem blend_transparent_identity_witness :
    (composite transparentScenario 2 sampleFrame).data 1 0 1 = sampleFrame.data 1 0 1 :=
  blend_transparent_identity transparentScenario rfl rfl rfl 2 sampleFrame 1 0 1

theorem composite_outside_witness :
    (composite outsideScenario 4 sampleFrame).stores = [] :=
  (composite_outside outsideScenario 4 sampleFrame (Or.inl (by decide))).1

theorem replace_ignored_without_alpha_witness :
    composite { blendScenario with replace := true } 2 sampleFrame =
      composite { blendScenario with replace := false } 2 sampleFrame :=
  replace_ignored_without_alpha blendScenario rfl 2 sampleFrame

end AudioMothAnimation
